import Mathlib

/-!
# Verification of the PyPPDF4 object model, parser, xref engine and codecs

Shallow embedding of the parts of the library exercised by the frozen
claims: the generic object model (`generic.py`, `generic1.py`), the
tokenizer helpers (`utils.py`), the cross-reference recording logic of
`PdfFileReader._parse_pdf_file` and the lookup logic of
`PdfFileReader.get_object` (`pdfreader.py`), the LZW encoder and the
`decode_stream_data` dispatch (`filters.py`), and the foreign-object
sweep of `PdfFileWriter._sweepIndirectReferences` (`pdfwriter.py`).

Bytes are modelled as `Nat` values below 256, byte strings as `List Nat`,
Python text strings as lists of Unicode code points (`List Nat`).
Fallible Python code (raised exceptions) is modelled with `Except String`
or `Option`.
-/

namespace PyPdf

/-! ## C10 : DictionaryObject.__setitem__ / setdefault (generic.py 410-426)

Python values that can reach `DictionaryObject.__setitem__`.  In the
source, `NameObject` and `TextStringObject` subclass `str`, and
`ByteStringObject` subclasses `bytes`; a plain Python `str` is not a
`PdfObject`.  `pyInt` stands for any other non-`PdfObject` value. -/

inductive PyVal where
  | nameObject (s : String)
  | textString (s : String)
  | byteString (b : List Nat)
  | numberObject (n : Int)
  | nullObject
  | rawStr (s : String)
  | pyInt (n : Int)
  deriving DecidableEq, Repr

namespace PyVal

/-- `isinstance(x, str)`: `NameObject` and `TextStringObject` subclass `str`. -/
def isPyStr : PyVal → Bool
  | nameObject _ => true
  | textString _ => true
  | rawStr _ => true
  | _ => false

/-- `isinstance(x, PdfObject)`. -/
def isPdfObject : PyVal → Bool
  | nameObject _ => true
  | textString _ => true
  | byteString _ => true
  | numberObject _ => true
  | nullObject => true
  | rawStr _ => false
  | pyInt _ => false

/-- `NameObject(key)` applied to a `str` instance keeps the character data. -/
def toNameObject : PyVal → PyVal
  | nameObject s => nameObject s
  | textString s => nameObject s
  | rawStr s => nameObject s
  | v => v

end PyVal

/-- A `DictionaryObject` as an insertion-ordered association list
(the Python `dict` it subclasses). -/
abbrev PDict : Type := List (PyVal × PyVal)

/-- `dict.__setitem__`: replace the value of an existing key in place, or
append a fresh binding. -/
def dictAssign : PDict → PyVal → PyVal → PDict
  | [], k, v => [(k, v)]
  | (k0, v0) :: rest, k, v =>
    if k0 = k then (k0, v) :: rest else (k0, v0) :: dictAssign rest k v

/-- `dict.__getitem__` membership lookup. -/
def dictLookup : PDict → PyVal → Option PyVal
  | [], _ => none
  | (k0, v0) :: rest, k => if k0 = k then some v0 else dictLookup rest k

/-- `DictionaryObject.__setitem__` (generic.py 410-418): convert a `str`
key to `NameObject`, then require both key and value to be `PdfObject`
before touching the underlying `dict`. -/
def setItem (d : PDict) (key value : PyVal) : Except String PDict :=
  let key := if key.isPyStr then key.toNameObject else key
  if ¬ key.isPdfObject then .error "key must be PdfObject"
  else if ¬ value.isPdfObject then .error "value must be PdfObject"
  else .ok (dictAssign d key value)

/-- `DictionaryObject.setdefault` (generic.py 420-426): no `str`
conversion; key and value must both be `PdfObject`; then
`dict.setdefault` inserts only when the key is absent. -/
def setDefault (d : PDict) (key value : PyVal) : Except String PDict :=
  if ¬ key.isPdfObject then .error "key must be PdfObject"
  else if ¬ value.isPdfObject then .error "value must be PdfObject"
  else .ok (if (dictLookup d key).isSome then d else d ++ [(key, value)])

/-- The invariant the claim is about: every stored key and value is a
`PdfObject`. -/
def DictWF (d : PDict) : Prop :=
  ∀ p ∈ d, p.1.isPdfObject = true ∧ p.2.isPdfObject = true

instance (d : PDict) : Decidable (DictWF d) := by
  unfold DictWF; infer_instance

theorem dictAssign_wf (d : PDict) (k v : PyVal)
    (hd : DictWF d) (hk : k.isPdfObject = true) (hv : v.isPdfObject = true) :
    DictWF (dictAssign d k v) := by
  induction d with
  | nil => intro p hp; simp [dictAssign] at hp; simp [hp, hk, hv]
  | cons hd0 tl ih =>
    intro p hp
    by_cases h0 : hd0.1 = k
    · simp [dictAssign, h0] at hp
      rcases hp with hp | hp
      · rcases hd0 with ⟨k0, v0⟩
        have := hd ⟨k0, v0⟩ (by simp)
        simp at h0
        simp [hp, h0, hk, hv]
      · exact hd p (by simp [hp])
    · simp [dictAssign, h0] at hp
      rcases hp with hp | hp
      · exact hd p (by simp [hp])
      · have htl : DictWF tl := fun q hq => hd q (by simp [hq])
        exact ih htl p hp

theorem dictAssign_lookup (d : PDict) (k v : PyVal) :
    dictLookup (dictAssign d k v) k = some v := by
  induction d with
  | nil => simp [dictAssign, dictLookup]
  | cons hd0 tl ih =>
    by_cases h0 : hd0.1 = k
    · rcases hd0 with ⟨k0, v0⟩
      simp at h0
      simp [dictAssign, h0, dictLookup]
    · rcases hd0 with ⟨k0, v0⟩
      simp at h0
      simp [dictAssign, h0, dictLookup, ih]

/-- **C10.** `DictionaryObject.__setitem__` and `setdefault` preserve the
invariant that every stored key and value is a `PdfObject`: a plain `str`
key passed to `__setitem__` is converted to a `NameObject` before
insertion and ends up bound to the given value, while a key or value
that is not a `PdfObject` makes either operation raise `ValueError`
before the underlying `dict` is touched (so the dictionary is left
unchanged). -/
theorem setItem_setDefault_invariant (d : PDict) (k v : PyVal) (hwf : DictWF d) :
    (∀ d', setItem d k v = .ok d' →
        DictWF d' ∧ ∀ s, k = .rawStr s → dictLookup d' (.nameObject s) = some v)
    ∧ ((k.isPdfObject = false ∧ k.isPyStr = false) ∨ v.isPdfObject = false →
        ∃ e, setItem d k v = .error e)
    ∧ (∀ d', setDefault d k v = .ok d' → DictWF d')
    ∧ (k.isPdfObject = false ∨ v.isPdfObject = false →
        ∃ e, setDefault d k v = .error e) := by
  refine ⟨?_, ?_, ?_, ?_⟩
  · intro d' hok
    unfold setItem at hok
    by_cases hkp : (if k.isPyStr then k.toNameObject else k).isPdfObject
    · by_cases hvp : v.isPdfObject
      · simp [hkp, hvp] at hok
        subst hok
        constructor
        · exact dictAssign_wf d _ v hwf (by simpa using hkp) (by simpa using hvp)
        · intro s hs
          subst hs
          simp only [PyVal.isPyStr, PyVal.toNameObject, if_true]
          exact dictAssign_lookup d _ v
      · simp [hkp, hvp] at hok
    · simp [hkp] at hok
  · rintro (⟨hk1, hk2⟩ | hv)
    · refine ⟨"key must be PdfObject", ?_⟩
      unfold setItem
      simp [hk2, hk1]
    · unfold setItem
      by_cases hkp : (if k.isPyStr then k.toNameObject else k).isPdfObject
      · exact ⟨"value must be PdfObject", by simp [hkp, hv]⟩
      · exact ⟨"key must be PdfObject", by simp [hkp]⟩
  · intro d' hok
    unfold setDefault at hok
    by_cases hkp : k.isPdfObject
    · by_cases hvp : v.isPdfObject
      · simp [hkp, hvp] at hok
        by_cases hmem : (dictLookup d k).isSome
        · simp [hmem] at hok; subst hok; exact hwf
        · simp [hmem] at hok
          subst hok
          intro p hp
          rcases List.mem_append.1 hp with hp | hp
          · exact hwf p hp
          · simp at hp
            simp [hp, hkp, hvp]
      · simp [hkp, hvp] at hok
    · simp [hkp] at hok
  · rintro (hk | hv)
    · exact ⟨"key must be PdfObject", by unfold setDefault; simp [hk]⟩
    · unfold setDefault
      by_cases hkp : k.isPdfObject
      · exact ⟨"value must be PdfObject", by simp [hkp, hv]⟩
      · exact ⟨"key must be PdfObject", by simp [hkp]⟩

/-- Witness for C10 at a concrete input: the empty dictionary, a plain
string key and a null value. -/
theorem setItem_setDefault_invariant_witness :
    DictWF ([] : PDict) ∧ DictWF [(PyVal.nameObject "/Type", PyVal.nullObject)] :=
  ⟨by decide,
    ((setItem_setDefault_invariant [] (.rawStr "/Type") .nullObject (by decide)).1
      [(PyVal.nameObject "/Type", PyVal.nullObject)] (by rfl)).1⟩

/-! ## C8 : decode_stream_data (filters.py 760-804)

The dispatch loop of `decode_stream_data`.  The bodies of the recognized
codecs (`FlateCodec.decode`, `ASCIIHexCodec.decode`, `LZWCodec.decode`,
`ASCII85Codec.decode`, `DCTCodec.decode`, `JPXCodec.decode`,
`CCITTFaxCodec.decode`) are abstracted as total byte-string transforms
(their `/DecodeParms` arguments folded into the functions), since the
claim is only about the dispatch on the filter name.  `filters` is the
`/Filter` chain already normalized to a tuple of names, as done at the
top of `decode_stream_data`. -/

/-- The recognized codecs, as abstract transforms. -/
structure Codecs where
  flate : List Nat → List Nat
  asciiHex : List Nat → List Nat
  lzw : List Nat → List Nat
  ascii85 : List Nat → List Nat
  dct : List Nat → List Nat
  jpx : List Nat → List Nat
  ccittFax : List Nat → List Nat

/-- An `EncodedStreamObject` as seen by `decode_stream_data`: the
normalized `/Filter` chain, the raw payload `stream._data`, and whether
the `/DecodeParams` dictionary consulted for the `/Crypt` filter has a
`/Name` or a `/Type` entry. -/
structure EncodedStream where
  filters : List String
  data : List Nat
  cryptHasName : Bool
  cryptHasType : Bool

/-- One iteration of the dispatch loop body: apply `filter_type` to
`data`, raising `NotImplementedError` for the unsupported cases. -/
def applyFilter (c : Codecs) (st : EncodedStream) (data : List Nat)
    (filterType : String) : Except String (List Nat) :=
  if filterType = "/FlateDecode" ∨ filterType = "/Fl" then .ok (c.flate data)
  else if filterType = "/ASCIIHexDecode" ∨ filterType = "/AHx" then .ok (c.asciiHex data)
  else if filterType = "/LZWDecode" ∨ filterType = "/LZW" then .ok (c.lzw data)
  else if filterType = "/ASCII85Decode" ∨ filterType = "/A85" then .ok (c.ascii85 data)
  else if filterType = "/DCTDecode" then .ok (c.dct data)
  else if filterType = "/JPXDecode" then .ok (c.jpx data)
  else if filterType = "/CCITTFaxDecode" then .ok (c.ccittFax data)
  else if filterType = "/Crypt" then
    if st.cryptHasName = false ∧ st.cryptHasType = false then .ok data
    else .error "/Crypt filter with /Name or /Type not supported yet"
  else .error ("unsupported filter " ++ filterType)

/-- The `for filter_type in filters` loop. -/
def filterLoop (c : Codecs) (st : EncodedStream) :
    List String → List Nat → Except String (List Nat)
  | [], data => .ok data
  | f :: fs, data =>
    match applyFilter c st data f with
    | .ok data' => filterLoop c st fs data'
    | .error e => .error e

/-- `decode_stream_data`: note the `if data:` guard — an empty payload
skips the whole filter loop. -/
def decode_stream_data (c : Codecs) (st : EncodedStream) : Except String (List Nat) :=
  if st.data = [] then .ok st.data
  else filterLoop c st st.filters st.data

/-- The set of filter names the dispatch recognizes (long and
abbreviated forms, plus the special-cased `/Crypt`). -/
def recognizedFilter (f : String) : Bool :=
  f = "/FlateDecode" ∨ f = "/Fl" ∨ f = "/ASCIIHexDecode" ∨ f = "/AHx" ∨
  f = "/LZWDecode" ∨ f = "/LZW" ∨ f = "/ASCII85Decode" ∨ f = "/A85" ∨
  f = "/DCTDecode" ∨ f = "/JPXDecode" ∨ f = "/CCITTFaxDecode" ∨ f = "/Crypt"

/-- A trivial concrete instantiation of the codec oracles. -/
def idCodecs : Codecs := ⟨id, id, id, id, id, id, id⟩

theorem filterLoop_unrecognized (c : Codecs) (st : EncodedStream) :
    ∀ (fs : List String) (data : List Nat),
      (∃ f ∈ fs, recognizedFilter f = false) →
      ∃ e, filterLoop c st fs data = .error e := by
  intro fs
  induction fs with
  | nil => intro data h; simp at h
  | cons f0 fs ih =>
    intro data h
    rcases h with ⟨f, hmem, hf⟩
    rcases List.mem_cons.1 hmem with rfl | hmem
    · refine ⟨"unsupported filter " ++ f, ?_⟩
      unfold recognizedFilter at hf
      simp only [decide_eq_false_iff_not, not_or] at hf
      obtain ⟨h1, h2, h3, h4, h5, h6, h7, h8, h9, h10, h11, h12⟩ := hf
      simp [filterLoop, applyFilter, h1, h2, h3, h4, h5, h6, h7, h8, h9, h10, h11, h12]
    · unfold filterLoop
      cases hap : applyFilter c st data f0 with
      | ok data' => exact ih data' ⟨f, hmem, hf⟩
      | error e => exact ⟨e, rfl⟩

/-- **Counterexample to C8 as stated.** A stream whose payload is empty
and whose filter chain holds the unrecognized name `/Foo` is returned
unchanged — no unsupported-filter error is raised, because the
`if data:` guard skips the filter loop entirely. -/
theorem decode_stream_data_empty_payload_no_error :
    decode_stream_data idCodecs ⟨["/Foo"], [], false, false⟩ = .ok [] := rfl

/-- **C8 (amended).** For every encoded stream with a *nonempty* payload
whose filter chain contains a name outside the recognized set,
`decode_stream_data` raises a fatal unsupported-filter error rather than
silently skipping the filter; a `/Crypt` filter passes the data through
unchanged when the `/DecodeParams` dictionary has no `/Name` and no
`/Type` entry, and is fatal when either is present. -/
theorem decode_stream_data_unsupported_fatal (c : Codecs) (st : EncodedStream)
    (hdata : st.data ≠ []) :
    ((∃ f ∈ st.filters, recognizedFilter f = false) →
      ∃ e, decode_stream_data c st = .error e)
    ∧ (st.cryptHasName = false → st.cryptHasType = false →
      ∀ data, applyFilter c st data "/Crypt" = .ok data)
    ∧ (st.cryptHasName = true ∨ st.cryptHasType = true →
      ∀ data, applyFilter c st data "/Crypt" =
        .error "/Crypt filter with /Name or /Type not supported yet") := by
  refine ⟨?_, ?_, ?_⟩
  · intro h
    unfold decode_stream_data
    simp only [hdata, if_false]
    exact filterLoop_unrecognized c st st.filters st.data h
  · intro hn ht data
    simp [applyFilter, hn, ht]
  · intro h data
    rcases h with hn | ht
    · simp [applyFilter, hn]
    · simp [applyFilter, ht]

/-- Witness for C8 (amended) at a concrete input: a one-byte stream
with the unrecognized filter name `/Foo`. -/
theorem decode_stream_data_unsupported_fatal_witness :
    ([0] : List Nat) ≠ [] ∧
    ∃ e, decode_stream_data idCodecs ⟨["/Foo"], [0], false, false⟩ = .error e :=
  ⟨by simp,
    (decode_stream_data_unsupported_fatal idCodecs ⟨["/Foo"], [0], false, false⟩
      (by simp)).1 ⟨"/Foo", by simp, by decide⟩⟩

/-! ## C2 : cross-reference entry recording (pdfreader.py 545-547, 664-676, 736-766)

`PdfFileReader._parse_pdf_file` walks the chain of cross-reference
sections starting from the trailer and following `/Prev` links, so the
most recent section is processed first.  Below, the per-entry recording
logic is modelled as a fold over the entries in walk order.  The two
index structures are `_xref_table` (generation → id → (offset, free))
and `_xref_stm` (id → (type, field2, field3)), modelled as association
lists. -/

/-- One entry of a cross-reference section, in the walk order of
`_parse_pdf_file`: a classic 20-byte table row, or a cross-reference
stream entry of type 0 (free), 1 (in use), 2 (compressed), or an
unknown type. -/
inductive XrefRecord where
  | classic (generation idnum offset : Nat) (free : Bool)
  | streamType0 (idnum nextFree nextGeneration : Nat)
  | streamType1 (idnum byteOffset generation : Nat)
  | streamType2 (idnum objStmId localId : Nat)
  | streamOther (idnum : Nat)
  deriving DecidableEq, Repr

/-- `self._xref_table` and `self._xref_stm`. -/
structure XrefState where
  xrefTable : List (Nat × List (Nat × (Nat × Bool)))
  xrefStm : List (Nat × (Nat × Nat × Nat))
  deriving DecidableEq, Repr

/-- Association-list lookup (Python `dict` read access). -/
def alookup {α : Type} : List (Nat × α) → Nat → Option α
  | [], _ => none
  | (k0, v0) :: rest, k => if k0 = k then some v0 else alookup rest k

/-- Association-list assignment (Python `dict` write access). -/
def aset {α : Type} : List (Nat × α) → Nat → α → List (Nat × α)
  | [], k, v => [(k, v)]
  | (k0, v0) :: rest, k, v =>
    if k0 = k then (k0, v) :: rest else (k0, v0) :: aset rest k v

/-- `_used_before(num, generation)` (pdfreader.py 545-547): true when the
id is already recorded in the classic table under this generation or
anywhere in the stream index. -/
def usedBefore (st : XrefState) (num generation : Nat) : Bool :=
  (match alookup st.xrefTable generation with
   | some m => (alookup m num).isSome
   | none => false)
  || (alookup st.xrefStm num).isSome

/-- Recording of one entry, exactly as `_parse_pdf_file` does it:
classic rows keep an already-present (generation, id) pair; stream
types 1 and 2 are guarded by `_used_before`; stream type 0 is written
unconditionally; unknown stream types are skipped (non-strict). -/
def recordXrefEntry (st : XrefState) : XrefRecord → XrefState
  | .classic generation idnum offset free =>
    let m := match alookup st.xrefTable generation with
      | some m => m
      | none => []
    if (alookup m idnum).isSome then st
    else { st with xrefTable := aset st.xrefTable generation (aset m idnum (offset, free)) }
  | .streamType0 idnum nextFree nextGeneration =>
    { st with xrefStm := aset st.xrefStm idnum (0, nextFree, nextGeneration) }
  | .streamType1 idnum byteOffset generation =>
    if usedBefore st idnum generation then st
    else { st with xrefStm := aset st.xrefStm idnum (1, byteOffset, generation) }
  | .streamType2 idnum objStmId localId =>
    if usedBefore st idnum 0 then st
    else { st with xrefStm := aset st.xrefStm idnum (2, objStmId, localId) }
  | .streamOther _ => st

/-- All cross-reference entries of the update chain, folded in walk
order (most recent section first, as `_parse_pdf_file` walks backward
from the trailer). -/
def processXrefChain (entries : List XrefRecord) : XrefState :=
  entries.foldl recordXrefEntry ⟨[], []⟩

/-- **C2 fails on the code.**  Take a chain of two cross-reference
stream sections that both define object id 5: the most recent section
(walked first) records it in use at offset 100, the older chained
section marks it free (type 0).  Because the type-0 branch lacks the
`_used_before` guard that types 1 and 2 have, the older free entry
*overwrites* the newer in-use entry, so resolution no longer sees the
most recent section's offset.  The second conjunct shows the newer
section alone records (1, 100, 0) for id 5; the first shows the chained
older section replaces it with (0, 0, 0). -/
theorem xref_type0_overwrites_newer_entry :
    alookup (processXrefChain
      [XrefRecord.streamType1 5 100 0, XrefRecord.streamType0 5 0 0]).xrefStm 5
      = some (0, 0, 0)
    ∧ alookup (processXrefChain [XrefRecord.streamType1 5 100 0]).xrefStm 5
      = some (1, 100, 0) := by
  constructor <;> rfl

/-! ## C3 : PdfFileReader.get_object (pdfreader.py 478-508) and
_get_object_by_ref (pdfreader.py 276-362)

The materialization of an in-use object (seek to its offset, read its
header and body, possibly decrypt) is abstracted by the oracles `fetch`
(offset → object) and `fetchCompressed` (container id × local index →
object); the claim is only about the free / undefined lookup paths.
A returned pair carries the object and whether a `PdfReadWarning` was
emitted on the way. -/

/-- An object returned by the reader: either the `NullObject`
substituted on permissive paths, or a real object (abstract). -/
inductive RObj where
  | nullObject
  | obj (n : Nat)
  deriving DecidableEq, Repr

/-- The `PdfFileReader` state that `get_object` consults. -/
structure Reader where
  strict : Bool
  xrefTable : List (Nat × List (Nat × (Nat × Bool)))
  xrefStm : List (Nat × (Nat × Nat × Nat))
  cache : List ((Nat × Nat) × RObj)
  deriving Repr

/-- Look up `(generation, idnum)` in `self._xref_table`. -/
def tableEntry (r : Reader) (generation idnum : Nat) : Option (Nat × Bool) :=
  match alookup r.xrefTable generation with
  | some m => alookup m idnum
  | none => none

/-- `_get_object_by_ref` for the classic-table source: a free entry is a
fatal read error in strict mode and a `NullObject` plus warning
otherwise; an in-use entry is materialized from its byte offset. -/
def getObjectByRefTable (r : Reader) (fetch : Nat → RObj) (idnum generation : Nat) :
    Except String (RObj × Bool) :=
  match tableEntry r generation idnum with
  | some (offset, free) =>
    if free then
      if r.strict then .error "Cannot fetch a free object"
      else .ok (.nullObject, true)
    else .ok (fetch offset, false)
  | none => .error "internal: table lookup missed"

/-- `_get_object_by_ref` for the cross-reference-stream source:
type 0 is the free case (fatal in strict mode, `NullObject` plus warning
otherwise); type 1 checks the stored generation and materializes from
the byte offset; type 2 goes through the compressed-object path; any
other type is read as a reference to the null object. -/
def getObjectByRefStream (r : Reader) (fetch : Nat → RObj)
    (fetchCompressed : Nat → Nat → RObj) (idnum generation : Nat) :
    Except String (RObj × Bool) :=
  match alookup r.xrefStm idnum with
  | some (t, f2, f3) =>
    if t = 0 then
      if r.strict then .error "Cannot fetch a free object"
      else .ok (.nullObject, true)
    else if t = 1 then
      if f3 ≠ generation then .error "Generation number given as input does not equal the one stored"
      else .ok (fetch f2, false)
    else if t = 2 then .ok (fetchCompressed f2 f3, false)
    else .ok (.nullObject, false)
  | none => .error "internal: stream lookup missed"

/-- `get_object` (pdfreader.py 478-508): consult the cache, then the
stream index, then the classic table; an id defined in neither is a
warning followed by an unconditional `PdfReadError`, in strict and
non-strict mode alike. -/
def get_object (r : Reader) (fetch : Nat → RObj) (fetchCompressed : Nat → Nat → RObj)
    (idnum generation : Nat) : Except String (RObj × Bool) :=
  match alookup2 r.cache (generation, idnum) with
  | some o => .ok (o, false)
  | none =>
    if (alookup r.xrefStm idnum).isSome then
      getObjectByRefStream r fetch fetchCompressed idnum generation
    else if (tableEntry r generation idnum).isSome then
      getObjectByRefTable r fetch idnum generation
    else .error "Could not find object"
where
  alookup2 : List ((Nat × Nat) × RObj) → Nat × Nat → Option RObj
    | [], _ => none
    | (k0, v0) :: rest, k => if k0 = k then some v0 else alookup2 rest k

/-- **Counterexample to C3 as stated.**  With strict mode off, looking
up a reference whose id is defined in no cross-reference section does
*not* degrade to a null object: `get_object` warns and then raises
`PdfReadError` unconditionally (exactly as its own docstring says). -/
theorem get_object_undefined_nonstrict_raises :
    get_object ⟨false, [], [], []⟩ (fun n => .obj n) (fun n _ => .obj n) 1 0
      = .error "Could not find object" := rfl

/-- **C3 (amended).**  With strict mode off, a lookup of a reference
marked free (in the stream index or the classic table) returns the
`NullObject` together with a warning instead of aborting; with strict
mode on the same lookup raises a read error.  A reference defined in no
section raises a read error in both modes (only a warning precedes it,
never a null substitution). -/
theorem get_object_free_and_undefined (r : Reader) (fetch : Nat → RObj)
    (fetchCompressed : Nat → Nat → RObj) (idnum generation : Nat)
    (hcache : get_object.alookup2 r.cache (generation, idnum) = none) :
    ((∃ a b, alookup r.xrefStm idnum = some (0, a, b)) →
      (r.strict = false →
        get_object r fetch fetchCompressed idnum generation = .ok (.nullObject, true))
      ∧ (r.strict = true →
        ∃ e, get_object r fetch fetchCompressed idnum generation = .error e))
    ∧ (alookup r.xrefStm idnum = none →
      (∃ off, tableEntry r generation idnum = some (off, true)) →
      (r.strict = false →
        get_object r fetch fetchCompressed idnum generation = .ok (.nullObject, true))
      ∧ (r.strict = true →
        ∃ e, get_object r fetch fetchCompressed idnum generation = .error e))
    ∧ (alookup r.xrefStm idnum = none →
      tableEntry r generation idnum = none →
      ∃ e, get_object r fetch fetchCompressed idnum generation = .error e) := by
  refine ⟨?_, ?_, ?_⟩
  · rintro ⟨a, b, hstm⟩
    constructor
    · intro hstrict
      unfold get_object
      simp [hcache, hstm, getObjectByRefStream, hstrict]
    · intro hstrict
      refine ⟨"Cannot fetch a free object", ?_⟩
      unfold get_object
      simp [hcache, hstm, getObjectByRefStream, hstrict]
  · rintro hstm ⟨off, htab⟩
    constructor
    · intro hstrict
      unfold get_object
      simp [hcache, hstm, htab, getObjectByRefTable, hstrict]
    · intro hstrict
      refine ⟨"Cannot fetch a free object", ?_⟩
      unfold get_object
      simp [hcache, hstm, htab, getObjectByRefTable, hstrict]
  · intro hstm htab
    refine ⟨"Could not find object", ?_⟩
    unfold get_object
    simp [hcache, hstm, htab]

/-- Witness for C3 (amended): a reader whose stream index marks id 7
free (type 0), in non-strict mode. -/
theorem get_object_free_and_undefined_witness :
    get_object.alookup2 ([] : List ((Nat × Nat) × RObj)) (0, 7) = none ∧
    get_object ⟨false, [], [(7, (0, 3, 0))], []⟩ (fun n => .obj n) (fun n _ => .obj n) 7 0
      = .ok (.nullObject, true) :=
  ⟨rfl,
    ((get_object_free_and_undefined ⟨false, [], [(7, (0, 3, 0))], []⟩
      (fun n => .obj n) (fun n _ => .obj n) 7 0 rfl).1 ⟨3, 0, rfl⟩).1 rfl⟩

/-! ## C5 : LZWCodec.Encoder (filters.py 275-389)

Faithful transcription of the encoder.  The Python `self.table` holds
byte-string keys for data patterns *and* the two reserved integer keys
256 and 257 (inserted by `_reset_table` so that `len(self.table)`
accounts for the reserved clear and end-of-data codes); byte-string
keys can never compare equal to the integer keys, so the model keeps
only the byte-string keys in an association list and counts the two
reserved keys in `lzwTableLen`. -/

/-- `self.output[bytepos] |= v` on the output byte list. -/
def orAt (l : List Nat) (i v : Nat) : List Nat :=
  l.set i ((l.getD i 0) ||| v)

/-- The `while` loop of `_write_code`, with fuel (each iteration writes
at least one bit, so `bitspercode + 1` fuel always suffices). -/
def writeCodeLoop (code bitspercode bitpos : Nat) :
    Nat → Nat → Nat → Nat → List Nat → List Nat
  | 0, _, _, _, output => output
  | fuel + 1, bitsWritten, relbitpos, bytepos, output =>
    if bitspercode - bitsWritten > 0 then
      let output := orAt output bytepos
        ((((code <<< bitsWritten) >>> (bitspercode - 8)) % 256) >>> relbitpos)
      let bitsWritten := bitsWritten + min (8 - relbitpos) (bitspercode - bitsWritten)
      writeCodeLoop code bitspercode bitpos fuel bitsWritten
        ((bitpos + bitsWritten) % 8) ((bitpos + bitsWritten) / 8) output
    else output

/-- The mutable state of `LZWCodec.Encoder`. -/
structure LZWEncState where
  bitspercode : Nat
  table : List (List Nat × Nat)
  output : List Nat
  bitpos : Nat
  deriving Repr

/-- `len(self.table)`: the byte-string keys plus the two reserved
integer keys 256 and 257. -/
def lzwTableLen (st : LZWEncState) : Nat := st.table.length + 2

/-- The byte-string part of the freshly reset table: each single byte
maps to its own value. -/
def lzwInitTable : List (List Nat × Nat) := (List.range 256).map (fun b => ([b], b))

/-- `_reset_table`. -/
def lzwResetTable (st : LZWEncState) : LZWEncState :=
  { st with bitspercode := 9, table := lzwInitTable }

/-- Byte-string key lookup in `self.table`. -/
def lzwLookup : List (List Nat × Nat) → List Nat → Option Nat
  | [], _ => none
  | (k0, v0) :: rest, k => if k0 = k then some v0 else lzwLookup rest k

/-- `_write_code`. -/
def lzwWriteCode (st : LZWEncState) (code : Nat) : LZWEncState :=
  let bytesAlloc := (st.bitpos + st.bitspercode + 7) / 8 - st.output.length
  let output := st.output ++ List.replicate bytesAlloc 0
  let output := writeCodeLoop code st.bitspercode st.bitpos
    (st.bitspercode + 1) 0 (st.bitpos % 8) (st.bitpos / 8) output
  { st with output := output, bitpos := st.bitpos + st.bitspercode }

/-- `_add_code_to_table`: at the 4096-entry cap, emit the clear code and
reset; when the table reaches the current code width, widen; then store
the new pattern under the next code value. -/
def lzwAddCodeToTable (st : LZWEncState) (value : List Nat) : LZWEncState :=
  if lzwTableLen st ≥ 4096 then
    let st := lzwResetTable (lzwWriteCode st 256)
    { st with table := st.table ++ [(value, lzwTableLen st)] }
  else if lzwTableLen st ≥ 2 ^ st.bitspercode then
    let st := { st with bitspercode := st.bitspercode + 1 }
    { st with table := st.table ++ [(value, lzwTableLen st)] }
  else
    { st with table := st.table ++ [(value, lzwTableLen st)] }

/-- The `for b__ in self.data` loop of `encode`. -/
def lzwEncodeLoop : List Nat → LZWEncState → List Nat →
    Except String (LZWEncState × List Nat)
  | [], st, buffer => .ok (st, buffer)
  | b :: rest, st, buffer =>
    if (lzwLookup st.table (buffer ++ [b])).isSome then
      lzwEncodeLoop rest st (buffer ++ [b])
    else
      match lzwLookup st.table buffer with
      | some code =>
        lzwEncodeLoop rest (lzwAddCodeToTable (lzwWriteCode st code) (buffer ++ [b])) [b]
      | none => .error "KeyError"

/-- `LZWCodec.Encoder(data).encode()`: emit the clear code, run the
main loop, then flush the pending buffer and emit the end-of-data code.
The final `self._write_code(self.table[buffer])` looks the pending
buffer up in the table; the empty buffer was never inserted, so the
lookup raises `KeyError`. -/
def lzwEncode (data : List Nat) : Except String (List Nat) :=
  let st : LZWEncState := ⟨9, lzwInitTable, [], 0⟩
  let st := lzwWriteCode st 256
  match lzwEncodeLoop data st [] with
  | .ok (st, buffer) =>
    match lzwLookup st.table buffer with
    | some code => .ok ((lzwWriteCode (lzwWriteCode st code) 257).output)
    | none => .error "KeyError"
  | .error e => .error e

set_option maxRecDepth 8192 in
/-- **C5 fails on the code.**  `LZWCodec.encode` applied to the empty
byte string raises `KeyError`: after the initial clear code the final
`self._write_code(self.table[buffer])` looks up the never-inserted
empty buffer.  Hence `decode(encode(b)) == b` cannot hold at `b = b""`:
the left-hand side does not even evaluate. -/
theorem lzw_encode_empty_raises : lzwEncode [] = .error "KeyError" := by
  rfl

set_option maxRecDepth 8192 in
/-- Sanity: the encoder does produce output on nonempty input
(the clear code, the code of the datum, the end-of-data code). -/
theorem lzw_encode_singleton_ok : (lzwEncode [97]).isOk = true := by decide

/-! ## C9 : read_string_from_stream (generic.py 304-382)

The literal-string scanner, over a byte buffer and a cursor.  `read1`
models `stream.read(1)`: at end of input it returns the empty string
(here `none`) without advancing. -/

/-- `stream.read(1)`. -/
def read1 (buf : List Nat) (pos : Nat) : Option Nat × Nat :=
  match buf.get? pos with
  | some b => (some b, pos + 1)
  | none => (none, pos)

/-- `tok.isdigit()` for a single byte. -/
def isDigitByte (b : Nat) : Bool := 48 ≤ b ∧ b ≤ 57

/-- The `escape_dict` of `read_string_from_stream`.  Note that the
Python source maps `c` to the two-character string backslash-`c`
(`"\c"` is not a recognized Python escape). -/
def escapeDict (b : Nat) : Option (List Nat) :=
  if b = 110 then some [10]        -- n
  else if b = 114 then some [13]   -- r
  else if b = 116 then some [9]    -- t
  else if b = 98 then some [8]     -- b
  else if b = 102 then some [12]   -- f
  else if b = 99 then some [92, 99] -- c
  else if b = 40 then some [40]    -- (
  else if b = 41 then some [41]    -- )
  else if b = 47 then some [47]    -- /
  else if b = 92 then some [92]    -- backslash
  else if b = 32 then some [32]    -- space
  else if b = 37 then some [37]    -- percent
  else if b = 60 then some [60]    -- <
  else if b = 62 then some [62]    -- >
  else if b = 91 then some [91]    -- left bracket
  else if b = 93 then some [93]    -- right bracket
  else if b = 35 then some [35]    -- hash
  else if b = 95 then some [95]    -- underscore
  else if b = 38 then some [38]    -- ampersand
  else if b = 36 then some [36]    -- dollar
  else none

/-- `int(tok, base=8)` over the collected digit bytes, then
`by_(chr(...))`: a digit 8 or 9 raises `ValueError`, a value above 255
cannot be encoded to a single LATIN-1 byte. -/
def octalByte (digits : List Nat) : Except String Nat :=
  if digits.any (fun d => 56 ≤ d) then .error "ValueError"
  else
    let v := digits.foldl (fun acc d => acc * 8 + (d - 48)) 0
    if v > 255 then .error "UnicodeEncodeError" else .ok v

/-- The `for _ in range(2)` digit-collection loop of the octal-escape
branch: each additionally read byte is *consumed* whether or not it is
a digit (the non-digit case breaks without seeking back). -/
def collectOctal (buf : List Nat) (pos : Nat) (first : Nat) : List Nat × Nat :=
  match read1 buf pos with
  | (some d1, pos1) =>
    if isDigitByte d1 then
      match read1 buf pos1 with
      | (some d2, pos2) =>
        if isDigitByte d2 then ([first, d1, d2], pos2)
        else ([first, d1], pos2)
      | (none, pos2) => ([first, d1], pos2)
    else ([first], pos1)
  | (none, pos1) => ([first], pos1)

/-- The body of the `while True` loop of `read_string_from_stream`,
with fuel (each iteration either consumes input or raises, so
`buf.length + 1` fuel always suffices).  Returns the accumulated string
bytes and the final cursor. -/
def readStringLoop (buf : List Nat) :
    Nat → Nat → Nat → List Nat → Except String (List Nat × Nat)
  | 0, _, _, _ => .error "out of fuel"
  | fuel + 1, pos, parens, txt =>
    match read1 buf pos with
    | (none, _) => .error "Stream has ended unexpectedly"
    | (some 40, pos1) => readStringLoop buf fuel pos1 (parens + 1) (txt ++ [40])
    | (some 41, pos1) =>
      if parens - 1 = 0 then .ok (txt, pos1)
      else readStringLoop buf fuel pos1 (parens - 1) (txt ++ [41])
    | (some 92, pos1) =>
      match read1 buf pos1 with
      | (some c, pos2) =>
        match escapeDict c with
        | some bs => readStringLoop buf fuel pos2 parens (txt ++ bs)
        | none =>
          if isDigitByte c then
            let (digits, pos3) := collectOctal buf pos2 c
            match octalByte digits with
            | .ok v => readStringLoop buf fuel pos3 parens (txt ++ [v])
            | .error e => .error e
          else if c = 10 ∨ c = 13 then
            match read1 buf pos2 with
            | (some x, pos3) =>
              if x = 10 ∨ x = 13 then readStringLoop buf fuel pos3 parens txt
              else readStringLoop buf fuel (pos3 - 1) parens txt
            | (none, pos3) => readStringLoop buf fuel pos3 parens txt
          else .error "Unexpected escaped string"
      | (none, pos2) =>
        match read1 buf pos2 with
        | (some x, pos3) =>
          if x = 10 ∨ x = 13 then readStringLoop buf fuel pos3 parens txt
          else readStringLoop buf fuel (pos3 - 1) parens txt
        | (none, pos3) => readStringLoop buf fuel pos3 parens txt
    | (some b, pos1) => readStringLoop buf fuel pos1 parens (txt ++ [b])

/-- `read_string_from_stream`: consume the opening parenthesis, then
scan with balanced parentheses and escapes, returning the raw string
bytes (which `create_string_object` then classifies). -/
def read_string_from_stream (buf : List Nat) (pos : Nat) :
    Except String (List Nat × Nat) :=
  readStringLoop buf (buf.length + 1) (pos + 1) 1 []

/-- Sanity: the concrete scenario of the claim does hold — parsing the
literal string bytes of the form left-paren `Hi\050there\051`
right-paren yields the bytes of `Hi(there)` (three-digit octal escapes
for the two inner parentheses). -/
theorem read_string_hi_there :
    read_string_from_stream [40, 72, 105, 92, 48, 53, 48, 116, 104, 101, 114, 101,
      92, 48, 53, 49, 41] 0
      = .ok ([72, 105, 40, 116, 104, 101, 114, 101, 41], 17) := by rfl

/-- **C9 fails on the code for short octal escapes.**  In the literal
string bytes left-paren `A\53Z` right-paren, the escape `\53` addresses
the single byte 43 (`+`), so by the claim the parse should yield `A+Z`.
The code instead yields only `A+`: the digit-collection loop consumes
the `Z` that terminated the two-digit escape and never seeks back, so
the byte following a one- or two-digit octal escape is silently
swallowed. -/
theorem read_string_short_octal_swallows_byte :
    read_string_from_stream [40, 65, 92, 53, 51, 90, 41] 0 = .ok ([65, 43], 7)
    ∧ [65, 43] ≠ [65, 43, 90] := by
  exact ⟨by rfl, by decide⟩

/-! ## C1 : PdfFileWriter._sweepIndirectReferences (pdfwriter.py 844-908)

The sweep over the object graph prior to final write, for a writer and
one foreign source document.  `WObj` is the object model as the sweep
sees it: `selfRef` is an `IndirectObject` whose `pdf` is the writer
itself, `foreignRef` one whose `pdf` is the foreign source document.
The external reference map `extern_map[data.pdf][generation][idnum]` is
modelled for the single foreign document by `pdfInMap` (whether
`data.pdf` is a key of `extern_map`) and `gens`
(generation → idnum → destination id). -/

inductive WObj where
  | null
  | selfRef (idnum : Nat)
  | foreignRef (idnum generation : Nat)
  | dict (entries : List (String × WObj))
  | arr (elems : List WObj)
  | streamObj (entries : List (String × WObj)) (payload : List Nat)
  | leaf (n : Nat)

/-- The writer state touched by `_sweepIndirectReferences`:
`self._objects` (with `None` placeholders), the recursion-guard
`self.stack`, and the external reference map. -/
structure SweepSt where
  objects : List (Option WObj)
  stack : List Nat
  pdfInMap : Bool
  gens : List (Nat × List (Nat × Nat))

/-- `_sweepIndirectReferences`, with fuel for the recursion (the Python
recursion is bounded by the acyclicity the memoization is supposed to
provide; fuel only needs to be large enough for the concrete graphs we
evaluate).  The foreign-reference branch reproduces the source exactly:
the memoization write, the recursive sweep of the resolved object, the
placeholder fill-in and the `return newobj_ido` are all nested under
`if data.generation not in extern_map[data.pdf]`, and a memoized hit
falls through to the final `return data`. -/
def sweep (src : Nat → Nat → Option WObj) :
    Nat → SweepSt → WObj → SweepSt × WObj
  | 0, st, data => (st, data)
  | fuel + 1, st, data =>
    match data with
    | .dict entries =>
      let (st, entries) := sweepEntries fuel st entries
      (st, .dict entries)
    | .streamObj entries payload =>
      let (st, entries) := sweepEntries fuel st entries
      (st, .streamObj entries payload)
    | .arr elems =>
      let (st, elems) := sweepElems fuel st elems
      (st, .arr elems)
    | .selfRef idnum =>
      if idnum ∈ st.stack then (st, .selfRef idnum)
      else
        let st := { st with stack := st.stack ++ [idnum] }
        match st.objects.getD (idnum - 1) none with
        | some realdata =>
          let (st, _) := sweep src fuel st realdata
          (st, .selfRef idnum)
        | none => (st, .selfRef idnum)
    | .foreignRef idnum generation =>
      let memo : Option Nat :=
        if st.pdfInMap then
          match alookup st.gens generation with
          | some m => alookup m idnum
          | none => none
        else none
      match memo with
      | some _ => (st, .foreignRef idnum generation)
      | none =>
        match src idnum generation with
        | none => (st, .null)
        | some newobj =>
          let st := { st with objects := st.objects ++ [none] }
          let destId := st.objects.length
          let st := { st with pdfInMap := true }
          if (alookup st.gens generation).isNone then
            let st := { st with gens := aset st.gens generation [] }
            let st := { st with gens := aset st.gens generation [(idnum, destId)] }
            let (st, swept) := sweep src fuel st newobj
            let st := { st with objects := st.objects.set (destId - 1) (some swept) }
            (st, .selfRef destId)
          else
            (st, newobj)
    | o => (st, o)
where
  /-- The `for key, value in data.items()` loop, with stream promotion
  via `self._add_object`. -/
  sweepEntries : Nat → SweepSt → List (String × WObj) →
      SweepSt × List (String × WObj)
    | _, st, [] => (st, [])
    | fuel, st, (k, v) :: rest =>
      let (st, v) := sweep src fuel st v
      let (st, v) :=
        match v with
        | .streamObj es p =>
          ({ st with objects := st.objects ++ [some (.streamObj es p)] },
            WObj.selfRef (st.objects.length + 1))
        | v => (st, v)
      let (st, rest) := sweepEntries fuel st rest
      (st, (k, v) :: rest)
  /-- The `for i__, v__ in enumerate(data)` loop. -/
  sweepElems : Nat → SweepSt → List WObj → SweepSt × List WObj
    | _, st, [] => (st, [])
    | fuel, st, v :: rest =>
      let (st, v) := sweep src fuel st v
      let (st, v) :=
        match v with
        | .streamObj es p =>
          ({ st with objects := st.objects ++ [some (.streamObj es p)] },
            WObj.selfRef (st.objects.length + 1))
        | v => (st, v)
      let (st, rest) := sweepElems fuel st rest
      (st, v :: rest)

/-- The two-object cyclic foreign document of the claim: object 1 is a
dictionary `A` whose `/B` entry refers to object 2, and object 2 is a
dictionary `B` whose `/A` entry refers back to object 1 (generation 0
throughout). -/
def cycleSrc : Nat → Nat → Option WObj
  | 1, 0 => some (.dict [("/B", .foreignRef 2 0)])
  | 2, 0 => some (.dict [("/A", .foreignRef 1 0)])
  | _, _ => none

/-- **C1 fails on the code.**  Sweeping a root dictionary holding a
reference into the cyclic foreign document terminates, but does *not*
produce a proper clone of `B`: because the memoization write, the
recursive sweep and the `return newobj_ido` are nested under
`if data.generation not in extern_map[data.pdf]`, the second foreign
object of generation 0 is never memoized; the sweep appends a `None`
placeholder for it that is never filled in, and splices the raw
(still-unswept) `B` — whose `/A` entry still holds the *foreign*
reference — inline into the clone of `A` instead of a reference to a
clone of `B`. -/
theorem sweep_cycle_leaves_placeholder :
    sweep cycleSrc 9 ⟨[], [], false, []⟩ (.dict [("/Root", .foreignRef 1 0)])
      = (⟨[some (.dict [("/B", .dict [("/A", .foreignRef 1 0)])]), none],
          [], true, [(0, [(1, 1)])]⟩,
        .dict [("/Root", .selfRef 1)]) := by
  simp [sweep, sweep.sweepEntries, sweep.sweepElems, cycleSrc, alookup, aset]

/-! ## C7 : create_string_object / original_bytes (generic1.py 223-311, 356-387)

Strings are byte lists; decoded text is a list of Unicode code points.
`_pdfDocEncoding` is the fixed 256-entry single-byte table of the
source (0 stands for the absent entries written as U+0000, which both
directions reject).  Python `bytes.decode("utf-16")` is modelled at its
single call site, where the input is known to start with the UTF-16BE
byte-order mark: the BOM is consumed and the rest is decoded as
big-endian UTF-16 with strict surrogate pairing. -/

/-- The `_pdfDocEncoding` tuple (generic1.py 388-645). -/
def pdfDocEncoding : List Nat := [
  0, 0, 0, 0, 0, 0, 0, 0,
  0, 0, 0, 0, 0, 0, 0, 0,
  0, 0, 0, 0, 0, 0, 0, 0,
  728, 711, 710, 729, 733, 731, 730, 732,
  32, 33, 34, 35, 36, 37, 38, 39,
  40, 41, 42, 43, 44, 45, 46, 47,
  48, 49, 50, 51, 52, 53, 54, 55,
  56, 57, 58, 59, 60, 61, 62, 63,
  64, 65, 66, 67, 68, 69, 70, 71,
  72, 73, 74, 75, 76, 77, 78, 79,
  80, 81, 82, 83, 84, 85, 86, 87,
  88, 89, 90, 91, 92, 93, 94, 95,
  96, 97, 98, 99, 100, 101, 102, 103,
  104, 105, 106, 107, 108, 109, 110, 111,
  112, 113, 114, 115, 116, 117, 118, 119,
  120, 121, 122, 123, 124, 125, 126, 0,
  8226, 8224, 8225, 8230, 8212, 8211, 402, 8260,
  8249, 8250, 8722, 8240, 8222, 8220, 8221, 8216,
  8217, 8218, 8482, 64257, 64258, 321, 338, 352,
  376, 381, 305, 322, 339, 353, 382, 0,
  8364, 161, 162, 163, 164, 165, 166, 167,
  168, 169, 170, 171, 172, 0, 174, 175,
  176, 177, 178, 179, 180, 181, 182, 183,
  184, 185, 186, 187, 188, 189, 190, 191,
  192, 193, 194, 195, 196, 197, 198, 199,
  200, 201, 202, 203, 204, 205, 206, 207,
  208, 209, 210, 211, 212, 213, 214, 215,
  216, 217, 218, 219, 220, 221, 222, 223,
  224, 225, 226, 227, 228, 229, 230, 231,
  232, 233, 234, 235, 236, 237, 238, 239,
  240, 241, 242, 243, 244, 245, 246, 247,
  248, 249, 250, 251, 252, 253, 254, 255]

/-- `decode_pdf_doc_encoding`: each byte maps through the table; a byte
whose entry is U+0000 raises `UnicodeDecodeError`. -/
def decode_pdf_doc_encoding : List Nat → Option (List Nat)
  | [] => some []
  | b :: rest =>
    if pdfDocEncoding.getD b 0 = 0 then none
    else
      match decode_pdf_doc_encoding rest with
      | some cs => some (pdfDocEncoding.getD b 0 :: cs)
      | none => none

/-- One lookup in `_pdfDocEncoding_rev`, the reverse dictionary built
from the nonzero table entries (unique by the assertion in the
source). -/
def pdfDocEncodingRev (c : Nat) : Option Nat :=
  if c = 0 then none else pdfDocEncoding.indexOf? c

/-- `encode_pdf_doc_encoding`: each code point maps through the reverse
dictionary; a missing entry raises `UnicodeEncodeError`. -/
def encode_pdf_doc_encoding : List Nat → Option (List Nat)
  | [] => some []
  | c :: rest =>
    match pdfDocEncodingRev c with
    | some b =>
      match encode_pdf_doc_encoding rest with
      | some bs => some (b :: bs)
      | none => none
    | none => none

/-- Pair up big-endian bytes into 16-bit code units; an odd trailing
byte is a decode error. -/
def bytesToUnits : List Nat → Option (List Nat)
  | [] => some []
  | [_] => none
  | hi :: lo :: rest =>
    match bytesToUnits rest with
    | some us => some ((hi * 256 + lo) :: us)
    | none => none

/-- Combine surrogate pairs into code points; unpaired surrogates are
decode errors (strict mode). -/
def combineSurrogates : List Nat → Option (List Nat)
  | [] => some []
  | [u] => if u < 55296 ∨ 57343 < u then some [u] else none
  | u :: v :: rest =>
    if u < 55296 ∨ 57343 < u then
      match combineSurrogates (v :: rest) with
      | some cs => some (u :: cs)
      | none => none
    else if u ≤ 56319 then
      if 56320 ≤ v ∧ v ≤ 57343 then
        match combineSurrogates rest with
        | some cs => some ((65536 + (u - 55296) * 1024 + (v - 56320)) :: cs)
        | none => none
      else none
    else none

/-- `bytes.decode("utf-16")` at the call site of `create_string_object`,
where the input carries the UTF-16BE byte-order mark. -/
def utf16Decode (b : List Nat) : Option (List Nat) :=
  match b with
  | 254 :: 255 :: rest =>
    match bytesToUnits rest with
    | some us => combineSurrogates us
    | none => none
  | _ => none

/-- `str.encode("utf-16be")` for one code point. -/
def utf16beEncodeChar (c : Nat) : List Nat :=
  if c < 65536 then [c / 256, c % 256]
  else
    [(55296 + (c - 65536) / 1024) / 256, (55296 + (c - 65536) / 1024) % 256,
     (56320 + (c - 65536) % 1024) / 256, (56320 + (c - 65536) % 1024) % 256]

/-- `str.encode("utf-16be")`. -/
def utf16beEncode (cs : List Nat) : List Nat := (cs.map utf16beEncodeChar).flatten

/-- The result of `create_string_object` on a byte string: a
`TextStringObject` with its autodetect flags, or a `ByteStringObject`. -/
inductive PdfStr where
  | text (chars : List Nat) (autodetectUtf16 : Bool) (autodetectPdfDoc : Bool)
  | byteStr (b : List Nat)
  deriving Repr

/-- `create_string_object` on a `bytes` argument (generic1.py 294-308):
a UTF-16BE byte-order mark selects UTF-16 decoding, otherwise the
PDFDocEncoding table is tried; a `UnicodeDecodeError` from either path
falls back to an opaque `ByteStringObject`. -/
def create_string_object (b : List Nat) : PdfStr :=
  if b.take 2 = [254, 255] then
    match utf16Decode b with
    | some cs => .text cs true false
    | none => .byteStr b
  else
    match decode_pdf_doc_encoding b with
    | some cs => .text cs false true
    | none => .byteStr b

/-- `TextStringObject.get_original_bytes` (generic1.py 247-259): rebuild
the encoded bytes from the autodetect method. -/
def get_original_bytes (chars : List Nat) (u16 pdoc : Bool) :
    Except String (List Nat) :=
  if u16 then .ok ([254, 255] ++ utf16beEncode chars)
  else if pdoc then
    match encode_pdf_doc_encoding chars with
    | some bs => .ok bs
    | none => .error "UnicodeEncodeError"
  else .error "no information about original bytes"

set_option maxRecDepth 100000 in
/-- The reverse dictionary inverts the table on every byte whose entry
is present (checked over all 256 bytes; uniqueness of the nonzero
entries is the assertion the source itself makes when building
`_pdfDocEncoding_rev`). -/
theorem pdfDocEncoding_rev_check :
    ∀ b ∈ List.range 256,
      pdfDocEncoding.getD b 0 = 0
        ∨ pdfDocEncodingRev (pdfDocEncoding.getD b 0) = some b := by
  decide

set_option maxRecDepth 4096 in
theorem pdfDocEncoding_length : pdfDocEncoding.length = 256 := by rfl

theorem pdfDocEncodingRev_getD (b : Nat) (hb : pdfDocEncoding.getD b 0 ≠ 0) :
    pdfDocEncodingRev (pdfDocEncoding.getD b 0) = some b := by
  by_cases hlt : b < 256
  · rcases pdfDocEncoding_rev_check b (List.mem_range.2 hlt) with h | h
    · exact absurd h hb
    · exact h
  · exfalso
    apply hb
    have hlen : pdfDocEncoding.length ≤ b := by
      rw [pdfDocEncoding_length]; omega
    exact List.getD_eq_default _ _ hlen

theorem encode_decode_pdfdoc :
    ∀ (b cs : List Nat), decode_pdf_doc_encoding b = some cs →
      encode_pdf_doc_encoding cs = some b := by
  intro b
  induction b with
  | nil =>
    intro cs h
    unfold decode_pdf_doc_encoding at h
    injection h with h
    subst h
    rfl
  | cons x rest ih =>
    intro cs h
    unfold decode_pdf_doc_encoding at h
    by_cases hz : pdfDocEncoding.getD x 0 = 0
    · rw [if_pos hz] at h; exact absurd h (by simp)
    · rw [if_neg hz] at h
      cases hrec : decode_pdf_doc_encoding rest with
      | none => rw [hrec] at h; exact absurd h (by simp)
      | some cs' =>
        rw [hrec] at h
        injection h with h
        subst h
        unfold encode_pdf_doc_encoding
        rw [pdfDocEncodingRev_getD x hz, ih cs' hrec]

/-- Big-endian bytes of one 16-bit unit. -/
def unitBytes (u : Nat) : List Nat := [u / 256, u % 256]

/-- The 16-bit unit sequence of one code point. -/
def unitsOfChar (c : Nat) : List Nat :=
  if c < 65536 then [c]
  else [55296 + (c - 65536) / 1024, 56320 + (c - 65536) % 1024]

theorem utf16beEncodeChar_eq (c : Nat) :
    utf16beEncodeChar c = ((unitsOfChar c).map unitBytes).flatten := by
  unfold utf16beEncodeChar unitsOfChar unitBytes
  split <;> simp

theorem bytesToUnits_inv :
    ∀ (us b : List Nat), (∀ x ∈ b, x < 256) → bytesToUnits b = some us →
      (us.map unitBytes).flatten = b := by
  intro us
  induction us with
  | nil =>
    intro b hb h
    match b with
    | [] => rfl
    | [x] => exact absurd h (by simp [bytesToUnits])
    | hi :: lo :: rest =>
      unfold bytesToUnits at h
      cases hrec : bytesToUnits rest with
      | none => rw [hrec] at h; exact absurd h (by simp)
      | some us' => rw [hrec] at h; exact absurd h (by simp)
  | cons u us' ih =>
    intro b hb h
    match b with
    | [] => exact absurd h (by simp [bytesToUnits])
    | [x] => exact absurd h (by simp [bytesToUnits])
    | hi :: lo :: rest =>
      unfold bytesToUnits at h
      cases hrec : bytesToUnits rest with
      | none => rw [hrec] at h; exact absurd h (by simp)
      | some us'' =>
        rw [hrec] at h
        injection h with h
        injection h with h1 h2
        subst h2
        have hhi : hi < 256 := hb hi (by simp)
        have hlo : lo < 256 := hb lo (by simp)
        have hrest : ∀ x ∈ rest, x < 256 := fun x hx => hb x (by simp [hx])
        have htl := ih rest hrest hrec
        simp only [List.map_cons, List.flatten_cons, htl, unitBytes]
        have hdiv : u / 256 = hi := by omega
        have hmod : u % 256 = lo := by omega
        rw [hdiv, hmod]
        rfl

/-- Units produced from bytes are 16-bit values. -/
theorem bytesToUnits_lt :
    ∀ (us b : List Nat), (∀ x ∈ b, x < 256) → bytesToUnits b = some us →
      ∀ u ∈ us, u < 65536 := by
  intro us
  induction us with
  | nil => intro b _ _ u hu; simp at hu
  | cons u us' ih =>
    intro b hb h v hv
    match b with
    | [] => exact absurd h (by simp [bytesToUnits])
    | [x] => exact absurd h (by simp [bytesToUnits])
    | hi :: lo :: rest =>
      unfold bytesToUnits at h
      cases hrec : bytesToUnits rest with
      | none => rw [hrec] at h; exact absurd h (by simp)
      | some us'' =>
        rw [hrec] at h
        injection h with h
        injection h with h1 h2
        subst h2
        have hhi : hi < 256 := hb hi (by simp)
        have hlo : lo < 256 := hb lo (by simp)
        rcases List.mem_cons.1 hv with rfl | hv
        · omega
        · exact ih rest (fun x hx => hb x (by simp [hx])) hrec v hv

set_option maxRecDepth 65536 in
theorem combineSurrogates_inv :
    ∀ (cs us : List Nat), (∀ u ∈ us, u < 65536) → combineSurrogates us = some cs →
      (cs.map unitsOfChar).flatten = us := by
  intro cs
  induction cs with
  | nil =>
    intro us hus h
    match us with
    | [] => rfl
    | [u] =>
      unfold combineSurrogates at h
      by_cases hu : u < 55296 ∨ 57343 < u
      · rw [if_pos hu] at h; exact absurd h (by simp)
      · rw [if_neg hu] at h; exact absurd h (by simp)
    | u :: v :: rest =>
      unfold combineSurrogates at h
      by_cases hu : u < 55296 ∨ 57343 < u
      · rw [if_pos hu] at h
        cases hrec : combineSurrogates (v :: rest) with
        | none => rw [hrec] at h; exact absurd h (by simp)
        | some cs' => rw [hrec] at h; exact absurd h (by simp)
      · rw [if_neg hu] at h
        by_cases hu2 : u ≤ 56319
        · rw [if_pos hu2] at h
          by_cases hv : 56320 ≤ v ∧ v ≤ 57343
          · rw [if_pos hv] at h
            cases hrec : combineSurrogates rest with
            | none => rw [hrec] at h; exact absurd h (by simp)
            | some cs' => rw [hrec] at h; exact absurd h (by simp)
          · rw [if_neg hv] at h; exact absurd h (by simp)
        · rw [if_neg hu2] at h; exact absurd h (by simp)
  | cons c cs' ih =>
    intro us hus h
    match us with
    | [] =>
      unfold combineSurrogates at h
      exact absurd h (by simp)
    | [u] =>
      unfold combineSurrogates at h
      by_cases hu : u < 55296 ∨ 57343 < u
      · rw [if_pos hu] at h
        simp only [Option.some.injEq, List.cons.injEq] at h
        obtain ⟨h1, h2⟩ := h
        subst h1; subst h2
        have hu16 : u < 65536 := hus u (by simp)
        simp [unitsOfChar, if_pos hu16]
      · rw [if_neg hu] at h; exact absurd h (by simp)
    | u :: v :: rest =>
      unfold combineSurrogates at h
      by_cases hu : u < 55296 ∨ 57343 < u
      · rw [if_pos hu] at h
        cases hrec : combineSurrogates (v :: rest) with
        | none => rw [hrec] at h; exact absurd h (by simp)
        | some cs'' =>
          rw [hrec] at h
          simp only [Option.some.injEq, List.cons.injEq] at h
          obtain ⟨h1, h2⟩ := h
          subst h1; subst h2
          have hu16 : u < 65536 := hus u (by simp)
          have htl := ih (v :: rest) (fun x hx => hus x (List.mem_cons_of_mem u hx)) hrec
          simp only [List.map_cons, List.flatten_cons, htl, unitsOfChar, if_pos hu16]
          rfl
      · rw [if_neg hu] at h
        by_cases hu2 : u ≤ 56319
        · rw [if_pos hu2] at h
          by_cases hv : 56320 ≤ v ∧ v ≤ 57343
          · rw [if_pos hv] at h
            cases hrec : combineSurrogates rest with
            | none => rw [hrec] at h; exact absurd h (by simp)
            | some cs'' =>
              rw [hrec] at h
              simp only [Option.some.injEq, List.cons.injEq] at h
              obtain ⟨h1, h2⟩ := h
              subst h2
              rw [← h1]
              have htl := ih rest
                (fun x hx => hus x (List.mem_cons_of_mem u (List.mem_cons_of_mem v hx))) hrec
              simp only [List.map_cons, List.flatten_cons, htl, unitsOfChar]
              have hge : ¬ (65536 + (u - 55296) * 1024 + (v - 56320) < 65536) := by omega
              rw [if_neg hge]
              have e1 : (65536 + (u - 55296) * 1024 + (v - 56320) - 65536) / 1024
                  = u - 55296 := by omega
              have e2 : (65536 + (u - 55296) * 1024 + (v - 56320) - 65536) % 1024
                  = v - 56320 := by omega
              rw [e1, e2]
              have e3 : 55296 + (u - 55296) = u := by omega
              have e4 : 56320 + (v - 56320) = v := by omega
              rw [e3, e4]
              rfl
          · rw [if_neg hv] at h; exact absurd h (by simp)
        · rw [if_neg hu2] at h; exact absurd h (by simp)

theorem flatten_map_flatten (g f : Nat → List Nat) :
    ∀ (l : List Nat),
      (l.map (fun c => ((g c).map f).flatten)).flatten
        = (((l.map g).flatten).map f).flatten := by
  intro l
  induction l with
  | nil => rfl
  | cons c rest ih =>
    simp only [List.map_cons, List.flatten_cons, List.map_append,
      List.flatten_append, ih]

/-- **C7.**  For every byte string `b` that `create_string_object`
classifies as text — it decodes under the PDFDocEncoding table, or it
starts with the UTF-16BE byte-order mark and decodes as UTF-16 — the
resulting `TextStringObject.original_bytes` reconstructs exactly the
original byte sequence `b`. -/
theorem create_string_object_original_bytes (b cs : List Nat) (u16 pdoc : Bool)
    (hbytes : ∀ x ∈ b, x < 256)
    (h : create_string_object b = .text cs u16 pdoc) :
    get_original_bytes cs u16 pdoc = .ok b := by
  unfold create_string_object at h
  by_cases hbom : b.take 2 = [254, 255]
  · rw [if_pos hbom] at h
    cases hdec : utf16Decode b with
    | none => rw [hdec] at h; exact absurd h (by simp)
    | some cs' =>
      rw [hdec] at h
      injection h with h1 h2 h3
      subst h1; subst h2; subst h3
      have hb : ∃ rest, b = 254 :: 255 :: rest := by
        cases b with
        | nil => exact absurd hbom (by simp)
        | cons x t =>
          cases t with
          | nil => exact absurd hbom (by simp)
          | cons y u =>
            simp only [List.take, List.cons.injEq] at hbom
            exact ⟨u, by rw [hbom.1, hbom.2.1]⟩
      obtain ⟨rest, rfl⟩ := hb
      · have hdec2 : (match bytesToUnits rest with
            | some us => combineSurrogates us
            | none => none) = some cs' := hdec
        cases hunits : bytesToUnits rest with
        | none => rw [hunits] at hdec2; exact absurd hdec2 (by simp)
        | some us =>
          rw [hunits] at hdec2
          have hrest : ∀ x ∈ rest, x < 256 := fun x hx =>
            hbytes x (List.mem_cons_of_mem 254 (List.mem_cons_of_mem 255 hx))
          have hus : ∀ u ∈ us, u < 65536 := bytesToUnits_lt us rest hrest hunits
          have hcomb := combineSurrogates_inv cs' us hus hdec2
          have hb := bytesToUnits_inv us rest hrest hunits
          unfold get_original_bytes
          simp only [if_true]
          unfold utf16beEncode
          have hmap : cs'.map utf16beEncodeChar
              = cs'.map (fun c => ((unitsOfChar c).map unitBytes).flatten) :=
            List.map_congr_left (fun c _ => utf16beEncodeChar_eq c)
          rw [hmap, flatten_map_flatten unitsOfChar unitBytes cs', hcomb, hb]
          rfl
  · rw [if_neg hbom] at h
    cases hdec : decode_pdf_doc_encoding b with
    | none => rw [hdec] at h; exact absurd h (by simp)
    | some cs' =>
      rw [hdec] at h
      injection h with h1 h2 h3
      subst h1; subst h2; subst h3
      unfold get_original_bytes
      simp only [Bool.false_eq_true, if_false, if_true]
      rw [encode_decode_pdfdoc b cs' hdec]

/-- Witness for C7 at a concrete input: the bytes BOM + UTF-16BE `H`. -/
theorem create_string_object_original_bytes_witness :
    (∀ x ∈ [254, 255, 0, 72], x < 256) ∧
    get_original_bytes [72] true false = .ok [254, 255, 0, 72] :=
  ⟨by decide,
    create_string_object_original_bytes [254, 255, 0, 72] [72] true false
      (by decide) (by rfl)⟩

/-! ## C6 : number serialization and re-parsing
(generic1.py 131-161, 164-197)

`NumberObject` subclasses `int`; its `repr` is the plain decimal
integer string.  `FloatObject` subclasses `decimal.Decimal` and is
modelled as a scaled integer `mant / 10 ^ scale` (the digits the
constructor string carried).  Its `repr`: an integral value is
quantized to `Decimal(1)` and printed without a decimal point;
otherwise the value is formatted with `"%.5f"` and trailing zeros are
stripped.  The `%.5f` formatting goes through a binary double in
CPython; the model uses exact 5-decimal rounding, which coincides with
CPython whenever the value has at most five fractional digits and
magnitude below about `2^36` — the round-trip theorem restricts itself
to that region.  `NumberObject.readFromStream` reads the maximal run of
bytes in `+-.0123456789` (raising at end of stream if no delimiter
follows, per `read_until_regex`), then dispatches on the presence of a
decimal point. -/

/-- Little-endian decimal digits, with fuel so that evaluation reduces
definitionally. -/
def natDigitsAux : Nat → Nat → List Nat
  | 0, _ => []
  | fuel + 1, n => if n = 0 then [] else (n % 10) :: natDigitsAux fuel (n / 10)

/-- Little-endian decimal digits of a natural number. -/
def natDigits (n : Nat) : List Nat := natDigitsAux n n

theorem natDigitsAux_eq (fuel : Nat) :
    ∀ n, n ≤ fuel → natDigitsAux fuel n = Nat.digits 10 n := by
  induction fuel with
  | zero =>
    intro n hn
    interval_cases n
    simp [natDigitsAux, Nat.digits_zero]
  | succ fuel ih =>
    intro n hn
    by_cases hz : n = 0
    · subst hz; simp [natDigitsAux, Nat.digits_zero]
    · rw [natDigitsAux, if_neg hz, Nat.digits_def' (by omega) (by omega),
        ih (n / 10) (by omega)]

theorem natDigits_eq (n : Nat) : natDigits n = Nat.digits 10 n :=
  natDigitsAux_eq n n le_rfl

/-- Decimal digit run of a natural number, most significant first. -/
def natRepr (n : Nat) : List Nat :=
  if n = 0 then [48] else (natDigits n).reverse.map (· + 48)

/-- `repr` of a `NumberObject` (Python `int` repr). -/
def intRepr (i : Int) : List Nat :=
  if i < 0 then 45 :: natRepr i.natAbs else natRepr i.natAbs

/-- Fold decimal digit bytes, most significant first. -/
def parseNat (ds : List Nat) : Nat :=
  ds.foldl (fun a d => a * 10 + (d - 48)) 0

/-- Trailing-zero stripping (`while o__ and o__[-1] == "0"`). -/
def stripZeros (l : List Nat) : List Nat :=
  (l.reverse.dropWhile (fun b => b = 48)).reverse

/-- Zero-pad a fractional part to five digits. -/
def pad5 (fp : Nat) : List Nat :=
  List.replicate (5 - (natRepr fp).length) 48 ++ natRepr fp

/-- Exact round-half-even division, modelling `%.5f` rounding for the
region where the double detour is exact. -/
def halfEvenDiv (a b : Nat) : Nat :=
  let q := a / b
  let r := a % b
  if 2 * r < b then q
  else if b < 2 * r then q + 1
  else if q % 2 = 0 then q else q + 1

/-- The numerator of the value scaled to exactly five decimals. -/
def scaleTo5 (n : Nat) (scale : Nat) : Nat :=
  if scale ≤ 5 then n * 10 ^ (5 - scale) else halfEvenDiv n (10 ^ (scale - 5))

/-- `FloatObject.__repr__`: integral values print as quantized
integers; the rest is `%.5f` with trailing zeros stripped. -/
def floatRepr (mant : Int) (scale : Nat) : List Nat :=
  if ((10 : Int) ^ scale) ∣ mant then intRepr (mant / 10 ^ scale)
  else
    stripZeros ((if mant < 0 then [45] else []) ++
      natRepr (scaleTo5 mant.natAbs scale / 100000) ++ [46] ++
      pad5 (scaleTo5 mant.natAbs scale % 100000))

/-- A byte accepted by `NumberObject.NumberPattern`
(the complement of `[^+-.0-9]`). -/
def isNumberChar (b : Nat) : Bool :=
  b = 43 ∨ b = 45 ∨ b = 46 ∨ (48 ≤ b ∧ b ≤ 57)

/-- The result of `NumberObject.readFromStream`. -/
inductive NumObj where
  | int (i : Int)
  | float (mant : Int) (scale : Nat)
  deriving DecidableEq, Repr

/-- Python `int(token)`: optional sign, then at least one digit. -/
def pyIntOfToken : List Nat → Except String Int
  | [] => .error "ValueError"
  | c :: ds =>
    if c = 45 then
      if ds ≠ [] ∧ ds.all isDigitByte then .ok (-(parseNat ds : Int))
      else .error "ValueError"
    else if c = 43 then
      if ds ≠ [] ∧ ds.all isDigitByte then .ok (parseNat ds : Int)
      else .error "ValueError"
    else
      if (c :: ds).all isDigitByte then .ok ((parseNat (c :: ds) : Int))
      else .error "ValueError"

/-- The integer/fraction split step of `decimal.Decimal(token)`. -/
def decSplit (ipart rest : List Nat) : Except String (Nat × Nat) :=
  match rest with
  | [] => if ipart ≠ [] then .ok (parseNat ipart, 0) else .error "InvalidOperation"
  | 46 :: fs =>
    if (ipart ≠ [] ∨ fs ≠ []) ∧ fs.all isDigitByte then
      .ok (parseNat ipart * 10 ^ fs.length + parseNat fs, fs.length)
    else .error "InvalidOperation"
  | _ => .error "InvalidOperation"

/-- `decimal.Decimal(token)` for the plain forms the tokenizer can
produce: optional sign, digits, optional point and fraction digits. -/
def decOfDigits (ds : List Nat) : Except String (Nat × Nat) :=
  decSplit (ds.takeWhile isDigitByte) (ds.drop (ds.takeWhile isDigitByte).length)

def decOfToken (t : List Nat) : Except String (Int × Nat) :=
  match t with
  | [] => .error "InvalidOperation"
  | c :: ds =>
    if c = 45 then
      match decOfDigits ds with
      | .ok (m, s) => .ok (-(m : Int), s)
      | .error e => .error e
    else if c = 43 then
      match decOfDigits ds with
      | .ok (m, s) => .ok ((m : Int), s)
      | .error e => .error e
    else
      match decOfDigits (c :: ds) with
      | .ok (m, s) => .ok ((m : Int), s)
      | .error e => .error e

/-- `NumberObject.readFromStream` (generic1.py 190-197): tokenize the
number characters (end of stream before a delimiter is a stream
error), then build a `FloatObject` when a decimal point is present and
a `NumberObject` otherwise. -/
def readNumberFromStream (buf : List Nat) : Except String NumObj :=
  let token := buf.takeWhile isNumberChar
  if token.length = buf.length then .error "Stream has ended unexpectedly"
  else if 46 ∈ token then
    match decOfToken token with
    | .ok (m, s) => .ok (.float m s)
    | .error e => .error e
  else
    match pyIntOfToken token with
    | .ok i => .ok (.int i)
    | .error e => .error e

/-- **Counterexample to C6 as stated.**  The real `FloatObject("1.0")`
(mantissa 10, one fractional digit) is integral, so its `repr` is the
quantized integer `1` — *without* a decimal point — and re-parsing
`1 ` yields the integer `NumberObject(1)`: the integer-versus-real
distinction is lost. -/
theorem float_one_reparses_as_int :
    floatRepr 10 1 = [49]
    ∧ readNumberFromStream [49, 32] = .ok (.int 1)
    ∧ NumObj.int 1 ≠ NumObj.float 10 1 := by
  refine ⟨by rfl, by rfl, by decide⟩

theorem foldl_base10 :
    ∀ (L : List Nat) (acc : Nat),
      List.foldl (fun a d => a * 10 + d) acc L.reverse
        = acc * 10 ^ L.length + Nat.ofDigits 10 L := by
  intro L
  induction L with
  | nil => intro acc; simp [Nat.ofDigits]
  | cons d L ih =>
    intro acc
    simp only [List.reverse_cons, List.foldl_append, ih, List.foldl_cons,
      List.foldl_nil, Nat.ofDigits_cons, List.length_cons]
    ring

theorem parseNat_natRepr (n : Nat) : parseNat (natRepr n) = n := by
  unfold natRepr
  by_cases h : n = 0
  · subst h; simp [parseNat]
  · rw [if_neg h, natDigits_eq]
    unfold parseNat
    rw [List.foldl_map]
    have heq : (fun (a x : Nat) => a * 10 + (x + 48 - 48)) = fun a x => a * 10 + x := by
      funext a x
      omega
    rw [heq, foldl_base10, Nat.ofDigits_digits]
    ring

theorem natRepr_bounds (n : Nat) : ∀ d ∈ natRepr n, 48 ≤ d ∧ d ≤ 57 := by
  intro d hd
  unfold natRepr at hd
  by_cases h : n = 0
  · rw [if_pos h] at hd
    simp at hd
    omega
  · rw [if_neg h, natDigits_eq] at hd
    simp only [List.mem_map, List.mem_reverse] at hd
    obtain ⟨x, hx, rfl⟩ := hd
    have := Nat.digits_lt_base (by norm_num) hx
    omega

theorem natRepr_ne_nil (n : Nat) : natRepr n ≠ [] := by
  unfold natRepr
  by_cases h : n = 0
  · simp [h]
  · rw [if_neg h, natDigits_eq]
    simp [Nat.digits_ne_nil_iff_ne_zero.2 h]

theorem natRepr_all_digits (n : Nat) : (natRepr n).all isDigitByte = true := by
  rw [List.all_eq_true]
  intro d hd
  have := natRepr_bounds n d hd
  simp [isDigitByte]
  omega

theorem natRepr_len_le (n k : Nat) (h : n < 10 ^ k) (hk : 1 ≤ k) :
    (natRepr n).length ≤ k := by
  unfold natRepr
  by_cases hz : n = 0
  · simp [hz]; omega
  · rw [if_neg hz, natDigits_eq]
    simp only [List.length_map, List.length_reverse]
    rw [Nat.digits_len 10 n (by norm_num) hz]
    have hlog := (Nat.lt_pow_iff_log_lt (by norm_num) hz).1 h
    omega

theorem takeWhile_append_all (p : Nat → Bool) :
    ∀ (l1 l2 : List Nat), (∀ x ∈ l1, p x = true) →
      (l1 ++ l2).takeWhile p = l1 ++ l2.takeWhile p := by
  intro l1
  induction l1 with
  | nil => intro l2 _; rfl
  | cons x l1 ih =>
    intro l2 h
    have hx : p x = true := h x (by simp)
    simp only [List.cons_append, List.takeWhile_cons, hx, if_true]
    rw [ih l2 (fun y hy => h y (by simp [hy]))]

theorem parseNat_append_zeros (l : List Nat) :
    ∀ m, parseNat (l ++ List.replicate m 48) = parseNat l * 10 ^ m := by
  intro m
  induction m generalizing l with
  | zero => simp [parseNat]
  | succ m ih =>
    have : l ++ List.replicate (m + 1) 48 = (l ++ [48]) ++ List.replicate m 48 := by
      rw [List.replicate_succ, List.append_assoc]
      rfl
    rw [this, ih]
    have : parseNat (l ++ [48]) = parseNat l * 10 := by
      unfold parseNat
      rw [List.foldl_append]
      simp
    rw [this]
    ring

theorem parseNat_leading_zeros (l : List Nat) (z : Nat) :
    parseNat (List.replicate z 48 ++ l) = parseNat l := by
  unfold parseNat
  rw [List.foldl_append]
  have : List.foldl (fun a d => a * 10 + (d - 48)) 0 (List.replicate z 48) = 0 := by
    induction z with
    | zero => rfl
    | succ z ih => rw [List.replicate_succ]; simpa using ih
  rw [this]

theorem parseNat_pad5 (fp : Nat) : parseNat (pad5 fp) = fp := by
  unfold pad5
  rw [parseNat_leading_zeros, parseNat_natRepr]

theorem pad5_length (fp : Nat) (h : fp < 100000) : (pad5 fp).length = 5 := by
  unfold pad5
  have := natRepr_len_le fp 5 (by norm_num at h ⊢; omega) (by norm_num)
  simp [List.length_replicate]
  omega

theorem pad5_bounds (fp : Nat) : ∀ d ∈ pad5 fp, 48 ≤ d ∧ d ≤ 57 := by
  intro d hd
  unfold pad5 at hd
  rcases List.mem_append.1 hd with hd | hd
  · have := List.eq_of_mem_replicate hd
    omega
  · exact natRepr_bounds fp d hd

/-- Stripping decomposition: every list is its stripped form followed
by the run of trailing zero digits. -/
theorem stripZeros_decomp (l : List Nat) :
    ∃ m, l = stripZeros l ++ List.replicate m 48 := by
  refine ⟨(l.reverse.takeWhile (fun b => b = 48)).length, ?_⟩
  conv_lhs => rw [← List.reverse_reverse l,
    ← List.takeWhile_append_dropWhile (p := fun b => b = 48) (l := l.reverse)]
  rw [List.reverse_append]
  unfold stripZeros
  congr 1
  have hall : ∀ x ∈ l.reverse.takeWhile (fun b => b = 48), x = 48 := by
    intro x hx
    have := List.mem_takeWhile_imp hx
    simpa using this
  rw [List.eq_replicate_of_mem hall]
  simp [List.reverse_replicate]

theorem stripZeros_mem (l : List Nat) : ∀ x ∈ stripZeros l, x ∈ l := by
  intro x hx
  unfold stripZeros at hx
  rw [List.mem_reverse] at hx
  have := (List.dropWhile_sublist (l := l.reverse) (p := fun b => b = 48)).mem hx
  rwa [List.mem_reverse] at this

theorem stripZeros_getLast_ne (l : List Nat) (h : stripZeros l ≠ []) :
    ∀ x, (stripZeros l).getLast? = some x → x ≠ 48 := by
  intro x hx
  unfold stripZeros at h hx
  cases hd : l.reverse.dropWhile (fun b => b = 48) with
  | nil => rw [hd] at h; simp at h
  | cons a t =>
    have ha : ¬ (a = 48) := by
      have := List.head?_dropWhile_not (p := fun b => b = 48) (l := l.reverse)
      rw [hd] at this
      simpa using this
    rw [hd] at hx
    rw [List.reverse_cons, List.getLast?_concat] at hx
    injection hx with hx
    subst hx
    exact ha

/-- Stripping only eats into the suffix when the suffix still holds a
nonzero digit. -/
theorem stripZeros_append (a b : List Nat) (h : stripZeros b ≠ []) :
    stripZeros (a ++ b) = a ++ stripZeros b := by
  unfold stripZeros at h ⊢
  rw [List.reverse_append, List.dropWhile_append]
  have hne : (b.reverse.dropWhile (fun x => x = 48)).isEmpty = false := by
    cases hd : b.reverse.dropWhile (fun x => x = 48) with
    | nil => rw [hd] at h; simp at h
    | cons x t => simp
  rw [hne]
  simp

theorem intRepr_numberChars (i : Int) : ∀ x ∈ intRepr i, isNumberChar x = true := by
  intro x hx
  unfold intRepr at hx
  by_cases hneg : i < 0
  · rw [if_pos hneg] at hx
    rcases List.mem_cons.1 hx with rfl | hx
    · rfl
    · have := natRepr_bounds _ x hx
      simp [isNumberChar]
      omega
  · rw [if_neg hneg] at hx
    have := natRepr_bounds _ x hx
    simp [isNumberChar]
    omega

theorem intRepr_no_dot (i : Int) : 46 ∉ intRepr i := by
  intro hx
  unfold intRepr at hx
  by_cases hneg : i < 0
  · rw [if_pos hneg] at hx
    rcases List.mem_cons.1 hx with h | h
    · exact absurd h (by decide)
    · have := natRepr_bounds _ 46 h; omega
  · rw [if_neg hneg] at hx
    have := natRepr_bounds _ 46 hx; omega

theorem natRepr_head_digit (n : Nat) :
    ∃ d rest, natRepr n = d :: rest ∧ 48 ≤ d ∧ d ≤ 57 := by
  cases hr : natRepr n with
  | nil => exact absurd hr (natRepr_ne_nil n)
  | cons d rest =>
    have hd := natRepr_bounds n d (by rw [hr]; simp)
    exact ⟨d, rest, rfl, hd.1, hd.2⟩

theorem pyIntOfToken_cons (c : Nat) (ds : List Nat) :
    pyIntOfToken (c :: ds) =
      (if c = 45 then
        if ds ≠ [] ∧ ds.all isDigitByte then .ok (-(parseNat ds : Int))
        else .error "ValueError"
      else if c = 43 then
        if ds ≠ [] ∧ ds.all isDigitByte then .ok (parseNat ds : Int)
        else .error "ValueError"
      else
        if (c :: ds).all isDigitByte then .ok ((parseNat (c :: ds) : Int))
        else .error "ValueError") := rfl

theorem pyIntOfToken_intRepr (i : Int) : pyIntOfToken (intRepr i) = .ok i := by
  unfold intRepr
  by_cases hneg : i < 0
  · rw [if_pos hneg, pyIntOfToken_cons]
    rw [if_pos rfl]
    rw [if_pos ⟨natRepr_ne_nil _, natRepr_all_digits _⟩]
    rw [parseNat_natRepr]
    congr 1
    omega
  · rw [if_neg hneg]
    obtain ⟨d, rest, hr, hd1, hd2⟩ := natRepr_head_digit i.natAbs
    rw [hr, pyIntOfToken_cons]
    rw [if_neg (by omega), if_neg (by omega)]
    have hall : ((d :: rest).all isDigitByte) = true := by
      rw [← hr]; exact natRepr_all_digits _
    rw [if_pos hall, ← hr, parseNat_natRepr]
    congr 1
    omega

/-- Shared tokenization step: a serialized number followed by a space
delimiter tokenizes to exactly the serialized bytes. -/
theorem takeWhile_token (ser : List Nat) (h : ∀ x ∈ ser, isNumberChar x = true) :
    (ser ++ [32]).takeWhile isNumberChar = ser := by
  rw [takeWhile_append_all isNumberChar ser [32] h]
  simp [List.takeWhile_cons, isNumberChar]

theorem readNumber_intRepr (i : Int) :
    readNumberFromStream (intRepr i ++ [32]) = .ok (.int i) := by
  unfold readNumberFromStream
  rw [takeWhile_token (intRepr i) (intRepr_numberChars i)]
  rw [if_neg (by simp)]
  rw [if_neg (by simpa using intRepr_no_dot i)]
  rw [pyIntOfToken_intRepr]

theorem decSplit_dot (ipart fs : List Nat) :
    decSplit ipart (46 :: fs) =
      (if (ipart ≠ [] ∨ fs ≠ []) ∧ fs.all isDigitByte then
        .ok (parseNat ipart * 10 ^ fs.length + parseNat fs, fs.length)
      else .error "InvalidOperation") := rfl

theorem decOfToken_cons (c : Nat) (ds : List Nat) :
    decOfToken (c :: ds) =
      (if c = 45 then
        match decOfDigits ds with
        | .ok (m, s) => .ok (-(m : Int), s)
        | .error e => .error e
      else if c = 43 then
        match decOfDigits ds with
        | .ok (m, s) => .ok ((m : Int), s)
        | .error e => .error e
      else
        match decOfDigits (c :: ds) with
        | .ok (m, s) => .ok ((m : Int), s)
        | .error e => .error e) := rfl

theorem decOfDigits_eval (ipN : Nat) (frac : List Nat)
    (hfd : ∀ x ∈ frac, 48 ≤ x ∧ x ≤ 57) :
    decOfDigits (natRepr ipN ++ 46 :: frac)
      = .ok (parseNat (natRepr ipN) * 10 ^ frac.length + parseNat frac,
          frac.length) := by
  unfold decOfDigits
  have htw : (natRepr ipN ++ 46 :: frac).takeWhile isDigitByte = natRepr ipN := by
    rw [takeWhile_append_all isDigitByte _ _ (fun x hx => by
      have := natRepr_bounds ipN x hx
      simp [isDigitByte]
      omega)]
    have h46 : isDigitByte 46 = false := by decide
    simp [List.takeWhile_cons, h46]
  rw [htw, List.drop_left, decSplit_dot]
  rw [if_pos ⟨Or.inl (natRepr_ne_nil ipN), by
    rw [List.all_eq_true]
    intro x hx
    have := hfd x hx
    simp [isDigitByte]
    omega⟩]

set_option maxHeartbeats 1000000 in
/-- **C6 (amended), real case.**  A non-integral `FloatObject` with one
to five fractional digits serializes with a decimal point, minimum
digits and no trailing zero, and re-parses as a `FloatObject` of equal
numeric value (the kind and the value are preserved). -/
theorem floatRepr_roundtrip (mant : Int) (scale : Nat)
    (h1 : 1 ≤ scale) (h5 : scale ≤ 5) (hnd : ¬ ((10 : Int) ^ scale ∣ mant)) :
    ∃ m s, readNumberFromStream (floatRepr mant scale ++ [32]) = .ok (.float m s)
      ∧ 1 ≤ s ∧ m * 10 ^ scale = mant * 10 ^ s
      ∧ (∀ x, (floatRepr mant scale).getLast? = some x → x ≠ 48) := by
  have hndN : ¬ ((10 : Nat) ^ scale ∣ mant.natAbs) := by
    intro h
    apply hnd
    have habs : ((10 : Int) ^ scale).natAbs = 10 ^ scale := by
      rw [Int.natAbs_pow]
      rfl
    exact Int.natAbs_dvd_natAbs.1 (by rw [habs]; exact h)
  set n : Nat := mant.natAbs with hn
  set n5 : Nat := n * 10 ^ (5 - scale) with hn5
  set ip : Nat := n5 / 100000 with hip
  set fp : Nat := n5 % 100000 with hfp
  set frac : List Nat := stripZeros (pad5 fp) with hfrac
  -- the serialized form
  have hpow55 : (10 : Nat) ^ scale * 10 ^ (5 - scale) = 100000 := by
    rw [← pow_add]
    have : scale + (5 - scale) = 5 := by omega
    rw [this]
    norm_num
  have hfp_ne : fp ≠ 0 := by
    intro h0
    apply hndN
    have hdvd : (100000 : Nat) ∣ n5 := Nat.dvd_of_mod_eq_zero h0
    rw [← hpow55, hn5] at hdvd
    exact (Nat.mul_dvd_mul_iff_right (show 0 < (10 : Nat) ^ (5 - scale) by positivity)).1 hdvd
  have hfp_lt : fp < 100000 := Nat.mod_lt _ (by norm_num)
  obtain ⟨m0, hdecomp⟩ := stripZeros_decomp (pad5 fp)
  rw [← hfrac] at hdecomp
  have hfrac_ne : frac ≠ [] := by
    intro h0
    apply hfp_ne
    have hrep : pad5 fp = List.replicate m0 48 := by
      rw [hdecomp, h0]
      rfl
    have hp : parseNat (pad5 fp) = 0 := by
      rw [hrep]
      have := parseNat_leading_zeros [] m0
      simpa [parseNat] using this
    rw [parseNat_pad5] at hp
    exact hp
  have hklen : frac.length + m0 = 5 := by
    have := congrArg List.length hdecomp
    rw [pad5_length fp hfp_lt] at this
    simp at this
    omega
  have hpf : parseNat frac * 10 ^ m0 = fp := by
    have := congrArg parseNat hdecomp
    rw [parseNat_pad5, parseNat_append_zeros] at this
    omega
  have hfrac_digits : ∀ x ∈ frac, 48 ≤ x ∧ x ≤ 57 := fun x hx =>
    pad5_bounds fp x (stripZeros_mem _ x (by rw [← hfrac]; exact hx))
  -- unfold the serializer
  have hrepr : floatRepr mant scale
      = (if mant < 0 then [45] else []) ++ (natRepr ip ++ (46 :: frac)) := by
    unfold floatRepr
    rw [if_neg hnd]
    have hs5 : scaleTo5 mant.natAbs scale = n5 := by
      unfold scaleTo5
      rw [if_pos h5]
    rw [hs5, ← hip, ← hfp]
    have hassoc : (if mant < 0 then [45] else []) ++
        natRepr ip ++ [46] ++ pad5 fp
        = ((if mant < 0 then [45] else []) ++ (natRepr ip ++ [46])) ++ pad5 fp := by
      simp [List.append_assoc]
    rw [hassoc, stripZeros_append _ _ (by rw [← hfrac]; exact hfrac_ne)]
    rw [← hfrac]
    simp [List.append_assoc]
  -- value algebra over Nat
  have hvalN : (ip * 10 ^ frac.length + parseNat frac) * 10 ^ scale
      = n * 10 ^ frac.length := by
    apply Nat.eq_of_mul_eq_mul_right (show 0 < 10 ^ (5 - scale) by positivity)
    have hnm : n5 = ip * 100000 + fp := by
      rw [hip, hfp]
      omega
    calc (ip * 10 ^ frac.length + parseNat frac) * 10 ^ scale * 10 ^ (5 - scale)
        = (ip * 10 ^ frac.length + parseNat frac) * 100000 := by
          rw [mul_assoc, hpow55]
      _ = ip * 100000 * 10 ^ frac.length + parseNat frac * 100000 := by ring
      _ = ip * 100000 * 10 ^ frac.length + parseNat frac * (10 ^ m0 * 10 ^ frac.length) := by
          rw [← pow_add]
          have : m0 + frac.length = 5 := by omega
          rw [this]
          norm_num
      _ = (ip * 100000 + parseNat frac * 10 ^ m0) * 10 ^ frac.length := by ring
      _ = (ip * 100000 + fp) * 10 ^ frac.length := by rw [hpf]
      _ = n5 * 10 ^ frac.length := by rw [hnm]
      _ = n * 10 ^ frac.length * 10 ^ (5 - scale) := by
          rw [hn5]
          ring
  -- the token and its parse
  have htoken_chars : ∀ x ∈ (if mant < 0 then [45] else [])
      ++ (natRepr ip ++ (46 :: frac)), isNumberChar x = true := by
    intro x hx
    rcases List.mem_append.1 hx with hx | hx
    · by_cases hneg : mant < 0
      · rw [if_pos hneg] at hx
        simp at hx
        subst hx
        rfl
      · rw [if_neg hneg] at hx
        simp at hx
    · rcases List.mem_append.1 hx with hx | hx
      · have := natRepr_bounds ip x hx
        simp [isNumberChar]
        omega
      · rcases List.mem_cons.1 hx with rfl | hx
        · rfl
        · have := hfrac_digits x hx
          simp [isNumberChar]
          omega
  have hdot : (46 : Nat) ∈ (if mant < 0 then [45] else [])
      ++ (natRepr ip ++ (46 :: frac)) := by
    apply List.mem_append.2
    right
    apply List.mem_append.2
    right
    simp
  have hdec : decOfToken ((if mant < 0 then [45] else [])
      ++ (natRepr ip ++ (46 :: frac)))
      = .ok ((if mant < 0 then
            -((parseNat (natRepr ip) * 10 ^ frac.length + parseNat frac : Nat) : Int)
          else
            ((parseNat (natRepr ip) * 10 ^ frac.length + parseNat frac : Nat) : Int)),
          frac.length) := by
    by_cases hneg : mant < 0
    · rw [if_pos hneg, if_pos hneg]
      rw [List.singleton_append, decOfToken_cons, if_pos rfl]
      rw [show natRepr ip ++ (46 :: frac) = natRepr ip ++ 46 :: frac from rfl]
      rw [decOfDigits_eval ip frac hfrac_digits]
    · rw [if_neg hneg, if_neg hneg]
      rw [List.nil_append]
      obtain ⟨d, rest0, hr, hd1, hd2⟩ := natRepr_head_digit ip
      rw [hr, List.cons_append, decOfToken_cons]
      rw [if_neg (by omega), if_neg (by omega)]
      rw [← List.cons_append, ← hr]
      rw [decOfDigits_eval ip frac hfrac_digits]
  refine ⟨(if mant < 0 then
      -((parseNat (natRepr ip) * 10 ^ frac.length + parseNat frac : Nat) : Int)
    else ((parseNat (natRepr ip) * 10 ^ frac.length + parseNat frac : Nat) : Int)),
    frac.length, ?_, ?_, ?_, ?_⟩
  · unfold readNumberFromStream
    rw [hrepr]
    rw [takeWhile_token _ htoken_chars]
    rw [if_neg (by simp)]
    rw [if_pos hdot]
    rw [hdec]
  · rcases List.exists_cons_of_ne_nil hfrac_ne with ⟨y, ys, hys⟩
    rw [hys]
    simp
  · rw [parseNat_natRepr]
    by_cases hneg : mant < 0
    · rw [if_pos hneg]
      have hmant : mant = -(n : Int) := by
        rw [hn]
        omega
      rw [hmant]
      push_cast
      rw [neg_mul, neg_mul]
      congr 1
      exact_mod_cast hvalN
    · rw [if_neg hneg]
      have hmant : mant = (n : Int) := by
        rw [hn]
        omega
      rw [hmant]
      exact_mod_cast hvalN
  · intro x hx
    rw [hrepr] at hx
    have hlast : ((if mant < 0 then [45] else [])
        ++ (natRepr ip ++ (46 :: frac))).getLast? = frac.getLast? := by
      rw [List.getLast?_append_of_ne_nil _ (by simp [hfrac_ne])]
      rw [List.getLast?_append_of_ne_nil _ (by simp [hfrac_ne])]
      rcases List.exists_cons_of_ne_nil hfrac_ne with ⟨y, ys, hys⟩
      rw [hys]
      simp
    rw [hlast] at hx
    refine stripZeros_getLast_ne (pad5 fp) ?_ x ?_
    · rw [← hfrac]; exact hfrac_ne
    · rw [← hfrac]; exact hx

/-- **C6 (amended).**  Serializing and re-parsing a number object:
an integer `NumberObject` serializes without a decimal point and
re-parses to an equal integer; a `FloatObject` with a nonzero
fractional part of one to five decimal digits serializes with the
minimum digits and no trailing zeros and re-parses to a real of equal
value; but a `FloatObject` holding an *integral* value serializes
without a decimal point — exactly like an integer — so re-parsing
returns an integer and the integer-versus-real distinction is lost for
integral reals (see `float_one_reparses_as_int`).  The unused magnitude
bound `_hmag` marks the region where the exact 5-decimal rounding of
the model provably coincides with the `%.5f` double formatting of the
source. -/
theorem number_serialize_reparse (i mant : Int) (scale : Nat)
    (h1 : 1 ≤ scale) (h5 : scale ≤ 5)
    (hnd : ¬ ((10 : Int) ^ scale ∣ mant))
    (_hmag : mant.natAbs ≤ 10 ^ 10) :
    (readNumberFromStream (intRepr i ++ [32]) = .ok (.int i) ∧ 46 ∉ intRepr i)
    ∧ (∃ m s, readNumberFromStream (floatRepr mant scale ++ [32]) = .ok (.float m s)
        ∧ 1 ≤ s ∧ m * 10 ^ scale = mant * 10 ^ s
        ∧ (∀ x, (floatRepr mant scale).getLast? = some x → x ≠ 48))
    ∧ (∀ j : Int, ((10 : Int) ^ scale) ∣ j →
        floatRepr j scale = intRepr (j / 10 ^ scale)) :=
  ⟨⟨readNumber_intRepr i, intRepr_no_dot i⟩,
   floatRepr_roundtrip mant scale h1 h5 hnd,
   fun j hj => by unfold floatRepr; rw [if_pos hj]⟩

/-- Witness for C6 (amended) at the concrete inputs `-12` (integer) and
`1.5` (mantissa 15, scale 1). -/
theorem number_serialize_reparse_witness :
    ¬ ((10 : Int) ^ 1 ∣ 15) ∧
    readNumberFromStream (intRepr (-12) ++ [32]) = .ok (.int (-12)) :=
  ⟨by decide,
    (number_serialize_reparse (-12) 15 1 (by decide) (by decide) (by decide)
      (by decide)).1.1⟩

/-! ## C4 : stream payload reading in DictionaryObject.readFromStream
(generic.py 530-581)

The portion of `DictionaryObject.readFromStream` that runs after the
closing `>>` of the dictionary: detect the `stream` keyword, normalize
the end-of-line after it, resolve `/Length` (directly or through an
indirect reference, saving and restoring the cursor around
`pdf.getObject`), read exactly `/Length` payload bytes, and check for
the `endstream` marker with the one-byte backward correction.  The
cursor model: `read(n)` returns up to `n` bytes and advances by the
number returned; `read_non_whitespace` consumes bytes until the first
non-whitespace one (returning `none` at end of input, where `read(1)`
returns the empty string). -/

def isWsByte (b : Nat) : Bool := b = 32 ∨ b = 10 ∨ b = 13 ∨ b = 9 ∨ b = 0

/-- `stream.read(n)` from an absolute position. -/
def readN (buf : List Nat) (pos n : Nat) : List Nat × Nat :=
  ((buf.drop pos).take n, min (pos + n) buf.length)

/-- `read_non_whitespace(stream)` (utils.py 102-113), with fuel. -/
def readNonWsAux (buf : List Nat) : Nat → Nat → Option Nat × Nat
  | 0, pos => (none, pos)
  | fuel + 1, pos =>
    match buf.get? pos with
    | none => (none, pos)
    | some b => if isWsByte b then readNonWsAux buf fuel (pos + 1) else (some b, pos + 1)

def read_non_whitespace (buf : List Nat) (pos : Nat) : Option Nat × Nat :=
  readNonWsAux buf (buf.length + 1) pos

/-- The `while eol == " "` loop after the `stream` keyword, with
fuel. -/
def skipSpacesRead (buf : List Nat) : Nat → Nat → Option Nat × Nat
  | 0, pos => (none, pos)
  | fuel + 1, pos =>
    match buf.get? pos with
    | none => (none, pos)
    | some b => if b = 32 then skipSpacesRead buf fuel (pos + 1) else (some b, pos + 1)

/-- End-of-line normalization after the `stream` keyword: skip odd
spaces, require LF or CR (`assert eol in ...`), and treat CR-LF as one
break (seeking back when the byte after CR is not LF, also at end of
input where `read(1)` does not advance). -/
def eolStage (buf : List Nat) (pos : Nat) : Except String Nat :=
  let r := skipSpacesRead buf (buf.length + 1) pos
  if r.1 = some 10 then .ok r.2
  else if r.1 = some 13 then
    if buf.get? r.2 = some 10 then .ok (r.2 + 1)
    else if (buf.get? r.2).isSome then .ok ((r.2 + 1) - 1)
    else .ok (r.2 - 1)
  else .error "AssertionError: eol"

/-- The `/Length` entry: a direct value, or an indirect reference whose
resolution (`pdf.getObject`) returns the value and leaves the cursor at
an arbitrary position (second component) which the code discards by
seeking back. -/
inductive LengthSpec where
  | direct (n : Nat)
  | indirect (resolve : Nat → Nat × Nat)

def resolveLength (spec : LengthSpec) (t : Nat) : Nat :=
  match spec with
  | .direct n => n
  | .indirect f => (f t).1

def endstreamBytes : List Nat := [101, 110, 100, 115, 116, 114, 101, 97, 109]

/-- The outcome of the post-dictionary stream check. -/
inductive StreamRes where
  | notStream (pos : Nat)
  | streamData (payload : List Nat) (pos : Nat)
  | err (msg : String)

def optToList : Option Nat → List Nat
  | some b => [b]
  | none => []

/-- The source logic from `pos = stream.tell()` to the end of the
stream branch (generic.py 530-581). -/
def readStreamAfterDict (buf : List Nat) (pos0 : Nat) (length : LengthSpec)
    (hasLength : Bool) : StreamRes :=
  let r1 := read_non_whitespace buf pos0
  if r1.1 = some 115 then
    let t5 := readN buf r1.2 5
    if t5.1 = [116, 114, 101, 97, 109] then
      match eolStage buf t5.2 with
      | .error e => .err e
      | .ok payStart =>
        if hasLength = false then .err "AssertionError: /Length"
        else
          let L := resolveLength length payStart
          let rp := readN buf payStart L
          let r6 := read_non_whitespace buf rp.2
          let r8 := readN buf r6.2 8
          if optToList r6.1 ++ r8.1 = endstreamBytes then .streamData rp.1 r8.2
          else if r8.2 < 10 then .err "ValueError: negative seek"
          else if (readN buf (r8.2 - 10) 9).1 = endstreamBytes then
            .streamData rp.1.dropLast (r8.2 - 10 + 9)
          else .err "Unable to find endstream marker"
    else .notStream pos0
  else .notStream pos0

/-- **C4.**  When the keyword `stream` follows the dictionary close,
the parser reads exactly `/Length` bytes of raw payload — an indirect
`/Length` is resolved by temporarily seeking away and returning to the
payload start, so the outcome is identical to a direct `/Length` with
the same value, whatever cursor the resolution leaves behind — and then
requires an `endstream` marker: found at the expected position, the
payload is returned whole; found exactly one byte earlier, the payload
is trimmed by exactly one trailing byte; in every other case a fatal
read error is raised. -/
theorem readStreamAfterDict_spec (buf : List Nat) (pos0 pos1 payStart n : Nat)
    (f : Nat → Nat × Nat)
    (hkw : read_non_whitespace buf pos0 = (some 115, pos1))
    (htr : (buf.drop pos1).take 5 = [116, 114, 101, 97, 109])
    (heol : eolStage buf (min (pos1 + 5) buf.length) = .ok payStart)
    (henough : payStart + n ≤ buf.length)
    (hf : (f payStart).1 = n) :
    readStreamAfterDict buf pos0 (.indirect f) true
      = readStreamAfterDict buf pos0 (.direct n) true
    ∧ ((buf.drop payStart).take n).length = n
    ∧ ((optToList (read_non_whitespace buf (payStart + n)).1
          ++ (buf.drop (read_non_whitespace buf (payStart + n)).2).take 8
          = endstreamBytes →
        readStreamAfterDict buf pos0 (.direct n) true
          = .streamData ((buf.drop payStart).take n)
              (min ((read_non_whitespace buf (payStart + n)).2 + 8) buf.length))
      ∧ (optToList (read_non_whitespace buf (payStart + n)).1
          ++ (buf.drop (read_non_whitespace buf (payStart + n)).2).take 8
          ≠ endstreamBytes →
         10 ≤ min ((read_non_whitespace buf (payStart + n)).2 + 8) buf.length →
         (buf.drop (min ((read_non_whitespace buf (payStart + n)).2 + 8) buf.length
            - 10)).take 9 = endstreamBytes →
         readStreamAfterDict buf pos0 (.direct n) true
           = .streamData (((buf.drop payStart).take n).dropLast)
               (min ((read_non_whitespace buf (payStart + n)).2 + 8) buf.length - 1)
         ∧ (((buf.drop payStart).take n).dropLast).length = n - 1)
      ∧ (optToList (read_non_whitespace buf (payStart + n)).1
          ++ (buf.drop (read_non_whitespace buf (payStart + n)).2).take 8
          ≠ endstreamBytes →
         10 ≤ min ((read_non_whitespace buf (payStart + n)).2 + 8) buf.length →
         (buf.drop (min ((read_non_whitespace buf (payStart + n)).2 + 8) buf.length
            - 10)).take 9 ≠ endstreamBytes →
         readStreamAfterDict buf pos0 (.direct n) true
           = .err "Unable to find endstream marker")) := by
  have hlenpay : ((buf.drop payStart).take n).length = n := by
    rw [List.length_take, List.length_drop]
    omega
  have hpos5 : min (payStart + n) buf.length = payStart + n := by omega
  have hread5 : readN buf pos1 5 = ([116, 114, 101, 97, 109], min (pos1 + 5) buf.length) := by
    unfold readN
    rw [htr]
  have hexpand : ∀ (spec : LengthSpec), resolveLength spec payStart = n →
      readStreamAfterDict buf pos0 spec true
        = (let pos5 := payStart + n
           let r6 := read_non_whitespace buf pos5
           let nd := (buf.drop r6.2).take 8
           let pos7 := min (r6.2 + 8) buf.length
           if optToList r6.1 ++ nd = endstreamBytes then
             .streamData ((buf.drop payStart).take n) pos7
           else if pos7 < 10 then .err "ValueError: negative seek"
           else if (buf.drop (pos7 - 10)).take 9 = endstreamBytes then
             .streamData (((buf.drop payStart).take n).dropLast) (pos7 - 10 + 9)
           else .err "Unable to find endstream marker") := by
    intro spec hspec
    unfold readStreamAfterDict
    rw [hkw]
    simp [hread5, readN, heol, hspec, hpos5, htr]
  constructor
  · rw [hexpand (.indirect f) hf, hexpand (.direct n) rfl]
  refine ⟨hlenpay, ?_, ?_, ?_⟩
  · intro hmark
    rw [hexpand (.direct n) rfl]
    simp [hmark]
  · intro hmark h10 hback
    rw [hexpand (.direct n) rfl]
    simp only [if_neg hmark]
    rw [if_neg (by omega), if_pos hback]
    refine ⟨?_, ?_⟩
    · congr 1
      omega
    · rw [List.length_dropLast, hlenpay]
  · intro hmark h10 hback
    rw [hexpand (.direct n) rfl]
    simp only [if_neg hmark]
    rw [if_neg (by omega), if_neg hback]

/-- Witness for C4 at a concrete buffer: a space, the keyword `stream`,
LF, the three payload bytes `ABC`, LF, and the `endstream` marker; the
indirect `/Length` resolver reports 3 and leaves the cursor at
position 999, which the seek-back discards. -/
theorem readStreamAfterDict_spec_witness :
    read_non_whitespace
        ([32, 115, 116, 114, 101, 97, 109, 10, 65, 66, 67, 10] ++ endstreamBytes) 0
      = (some 115, 2) ∧
    readStreamAfterDict
        ([32, 115, 116, 114, 101, 97, 109, 10, 65, 66, 67, 10] ++ endstreamBytes) 0
        (.indirect (fun _ => (3, 999))) true
      = readStreamAfterDict
        ([32, 115, 116, 114, 101, 97, 109, 10, 65, 66, 67, 10] ++ endstreamBytes) 0
        (.direct 3) true :=
  ⟨by decide,
    (readStreamAfterDict_spec
      ([32, 115, 116, 114, 101, 97, 109, 10, 65, 66, 67, 10] ++ endstreamBytes)
      0 2 8 3 (fun _ => (3, 999))
      (by decide) (by decide) (by rfl) (by decide) (by decide)).1⟩

end PyPdf

